import Mathlib

/-!
# Cache-key derivation and cache operations of `backend/cache`

A shallow embedding of `cache_utils.go` and `redis_config.go`.

* Go strings are modelled by Lean `String`s (sequences of Unicode scalar values);
  `[]byte(s)` is the UTF-8 encoding of the string.
* `uint64` arithmetic is arithmetic on `Nat` reduced modulo `2 ^ 64`.
* `time.Duration` is an `Int` (nanoseconds).
* A Go `error` is the text of its message; `nil` is `none`.
* A Go map that is traversed with `range` is given by the list of its entries in the
  order of that traversal; the language leaves this order unspecified.
-/

namespace HermitCache

/-! ## Library functions used by the source -/

/-- Bytes of the UTF-8 encoding of one character (the conversion `[]byte(string)`). -/
def utf8EncodeChar (c : Char) : List Nat :=
  let v := c.toNat
  if v < 0x80 then [v]
  else if v < 0x800 then [0xC0 + v / 64, 0x80 + v % 64]
  else if v < 0x10000 then [0xE0 + v / 4096, 0x80 + (v / 64) % 64, 0x80 + v % 64]
  else [0xF0 + v / 262144, 0x80 + (v / 4096) % 64, 0x80 + (v / 64) % 64, 0x80 + v % 64]

/-- The conversion `[]byte(s)`. -/
def toBytes (s : String) : List Nat :=
  s.data.flatMap utf8EncodeChar

/-- Go `strings.Join`. -/
def Join : List String → String → String
  | [], _ => ""
  | [a], _ => a
  | a :: b :: rest, sep => a ++ sep ++ Join (b :: rest) sep

/-- The constant `offset64` of `hash/fnv`. -/
def offset64 : Nat := 14695981039346656037

/-- The constant `prime64` of `hash/fnv`. -/
def prime64 : Nat := 1099511628211

/-- State of the hasher returned by `fnv.New64a()`. -/
def New64a : Nat := offset64

/-- The method `(*sum64a).Write`: for each byte, xor then multiply, in `uint64`. -/
def sum64aWrite (hash : Nat) (data : List Nat) : Nat :=
  data.foldl (fun h c => ((h ^^^ c) * prime64) % 2 ^ 64) hash

/-- The method `(*sum64a).Sum64`. -/
def Sum64 (hash : Nat) : Nat := hash

/-- An operand of a formatting call. An `error` operand is passed as its message. -/
inductive Arg where
  | str (s : String)
  | num (n : Nat)
  deriving DecidableEq, Repr

/-- Rendering of one operand under a verb (`%s`, `%d`, `%v`), as `fmt` does. -/
def renderArg (verb : Char) (a : Arg) : String :=
  match a with
  | .str s =>
    if verb = 's' ∨ verb = 'v' then s
    else "%!" ++ verb.toString ++ "(string=" ++ s ++ ")"
  | .num n =>
    if verb = 'd' ∨ verb = 'v' then toString n
    else "%!" ++ verb.toString ++ "(uint64=" ++ toString n ++ ")"

/-- Interpretation of a format over its operands; an operand that is not there is
rendered the way `fmt` renders it. -/
def sprintfAux : List Char → List Arg → String
  | [], _ => ""
  | [c], _ => if c = '%' then "%!(NOVERB)" else c.toString
  | c :: v :: rest, args =>
    if c = '%' then
      if v = '%' then "%" ++ sprintfAux rest args
      else
        match args with
        | a :: args' => renderArg v a ++ sprintfAux rest args'
        | [] => "%!" ++ v.toString ++ "(MISSING)" ++ sprintfAux rest []
    else c.toString ++ sprintfAux (v :: rest) args

/-- Go `fmt.Sprintf` for the verbs the source uses. -/
def Sprintf (format : String) (args : List Arg) : String :=
  sprintfAux format.data args

/-- Go `fmt.Errorf`: the error whose message is the formatted text. -/
def Errorf (format : String) (args : List Arg) : String :=
  Sprintf format args

/-! ## `cache_utils.go`: key derivation -/

def APIPrefix : String := "api:"
def BlockchainPrefix : String := "blockchain:"
def TransactionPrefix : String := "tx:"
def AccountPrefix : String := "account:"

/-- The function `generateCacheKey(prefix, params...)`. -/
def generateCacheKey (pfx : String) (params : List String) : String :=
  let joined := Join params ":"
  let h := New64a
  let h := sum64aWrite h (toBytes joined)
  let hash := Sum64 h
  Sprintf "%s%d:%s" [.str pfx, .num hash, .str joined]

/-! ## The store behind `*redis.Client` -/

/-- The type `time.Duration`. -/
abbrev Duration := Int

/-- The constant `time.Millisecond`. -/
def Millisecond : Duration := 1000000

/-- The constant `time.Second`. -/
def Second : Duration := 1000000000

/-- Division of `int64` values by a positive constant, as Go does it: towards zero. -/
def quoDuration (a b : Int) : Int :=
  if 0 ≤ a then a / b else -((-a) / b)

/-- The client's `usePrecise`: whether a duration is sent in milliseconds. -/
def usePrecise (dur : Duration) : Bool :=
  decide (dur < Second) || decide (dur % Second ≠ 0)

/-- The client's `formatMs`: a duration in whole milliseconds, at least one when it is
positive. -/
def formatMs (dur : Duration) : Int :=
  if 0 < dur ∧ dur < Millisecond then 1 else quoDuration dur Millisecond

/-- The client's `formatSec`: a duration in whole seconds, at least one when it is
positive. -/
def formatSec (dur : Duration) : Int :=
  if 0 < dur ∧ dur < Second then 1 else quoDuration dur Second

/-- The constant `redis.KeepTTL`. -/
def KeepTTL : Duration := -1

/-- A call on the client, with the arguments it is given. -/
inductive Call where
  | ping
  | get (key : String)
  | set (key value : String) (expiration : Duration)
  | del (key : String)
  | scan (pattern : String)
  | expire (key : String) (ttl : Duration)
  | ttl (key : String)
  deriving DecidableEq, Repr

/-- One stored entry: key, value and the time to live the server holds for it, in
nanoseconds; zero stands for an entry that does not expire. -/
structure Entry where
  key : String
  value : String
  expiration : Duration
  deriving DecidableEq, Repr

/-- An error returned by the client library: the sentinel `redis.Nil`, or a failure of
the transport or of the server with its message. -/
inductive ClientErr where
  | Nil
  | failure (msg : String)
  deriving DecidableEq, Repr

/-- The method `Error()` of a client error. -/
def ClientErr.msg : ClientErr → String
  | .Nil => "redis: nil"
  | .failure m => m

/-- What a scan iterator produces: the keys it yields, in order, and the error it ends
with, if any (`iter.Err()`). -/
structure ScanIterator where
  keys : List String
  err : Option ClientErr

/-- The connected client together with the server it talks to.
`data` is the content of the store, `trace` are the calls made on the client so far
(oldest first), `faults n c` says whether call `c`, made as the `n`-th call, fails and
with which message, and `scanner data pattern` is what the cursor iteration over
`pattern` produces when the content is `data`. No clock is modelled: entries do not
expire. -/
structure Redis where
  data : List Entry
  trace : List Call
  faults : Nat → Call → Option String
  scanner : List Entry → String → ScanIterator

/-- The time to live the server holds after `Client.Set` with `expiration`: a positive
one is sent as `PX` in whole milliseconds or as `EX` in whole seconds, `KeepTTL` keeps
what the key had, anything else sends no expiration. -/
def storedExpiration (old : Option Entry) (expiration : Duration) : Duration :=
  if 0 < expiration then
    if usePrecise expiration then formatMs expiration * Millisecond
    else formatSec expiration * Second
  else if expiration = KeepTTL then
    match old with
    | some e => e.expiration
    | none => 0
  else 0

namespace Redis

/-- Record that a command is sent. -/
def issue (R : Redis) (c : Call) : Redis :=
  { R with trace := R.trace ++ [c] }

/-- The failure, if any, of command `c` when sent now. -/
def fault (R : Redis) (c : Call) : Option String :=
  R.faults R.trace.length c

/-- The entry stored under `key`, if any. -/
def lookup (R : Redis) (key : String) : Option Entry :=
  R.data.find? (fun e => e.key = key)

/-- Command `PING`: `Client.Ping(ctx).Err()`. -/
def Ping (R : Redis) : Option ClientErr × Redis :=
  ((R.fault .ping).map .failure, R.issue .ping)

/-- Command `SET`: `Client.Set(ctx, key, value, expiration).Err()`. -/
def Set (R : Redis) (key value : String) (expiration : Duration) : Option ClientErr × Redis :=
  match R.fault (.set key value expiration) with
  | some m => (some (.failure m), R.issue (.set key value expiration))
  | none =>
    (none, { R.issue (.set key value expiration) with
      data := R.data.filter (fun e => e.key ≠ key)
        ++ [⟨key, value, storedExpiration (R.lookup key) expiration⟩] })

/-- Command `GET`: `Client.Get(ctx, key).Result()`; an absent key gives `redis.Nil`. -/
def Get (R : Redis) (key : String) : Except ClientErr String × Redis :=
  match R.fault (.get key) with
  | some m => (.error (.failure m), R.issue (.get key))
  | none =>
    match R.lookup key with
    | some e => (.ok e.value, R.issue (.get key))
    | none => (.error .Nil, R.issue (.get key))

/-- Command `DEL`: `Client.Del(ctx, key).Err()`; deleting an absent key is no error. -/
def Del (R : Redis) (key : String) : Option ClientErr × Redis :=
  match R.fault (.del key) with
  | some m => (some (.failure m), R.issue (.del key))
  | none => (none, { R.issue (.del key) with data := R.data.filter (fun e => e.key ≠ key) })

/-- Command `EXPIRE`: `Client.Expire(ctx, key, ttl).Err()`; the timeout is sent in whole
seconds, and one that is not positive removes the key. -/
def Expire (R : Redis) (key : String) (ttl : Duration) : Option ClientErr × Redis :=
  match R.fault (.expire key ttl) with
  | some m => (some (.failure m), R.issue (.expire key ttl))
  | none =>
    (none, { R.issue (.expire key ttl) with
      data :=
        if formatSec ttl ≤ 0 then R.data.filter (fun e => e.key ≠ key)
        else R.data.map
          (fun e => if e.key = key then { e with expiration := formatSec ttl * Second } else e) })

/-- Command `TTL`: `Client.TTL(ctx, key).Result()`; `-2` for an absent key, `-1` for a
key without expiration, otherwise the time to live rounded to whole seconds. -/
def TTL (R : Redis) (key : String) : (Duration × Option ClientErr) × Redis :=
  match R.fault (.ttl key) with
  | some m => ((0, some (.failure m)), R.issue (.ttl key))
  | none =>
    match R.lookup key with
    | none => ((-2, none), R.issue (.ttl key))
    | some e =>
      ((if 0 < e.expiration then (e.expiration / Millisecond + 500) / 1000 * Second else -1, none),
        R.issue (.ttl key))

/-- Command `SCAN ... MATCH pattern`: `Client.Scan(ctx, 0, pattern, 100).Iterator()`. A
failure of the first page leaves an iterator without keys. -/
def Scan (R : Redis) (pattern : String) : ScanIterator × Redis :=
  match R.fault (.scan pattern) with
  | some m => (⟨[], some (.failure m)⟩, R.issue (.scan pattern))
  | none => (R.scanner R.data pattern, R.issue (.scan pattern))

end Redis

/-! ## Key patterns of the store (`MATCH`)

The store matches keys against glob-style patterns, byte by byte: `*` stands for any
run of bytes, `?` for one byte, `[...]` for a class of bytes and a backslash takes the
next byte literally. -/

/-- The body of a class `[...]` tried on byte `c`: whether some item matched so far,
and the pattern that follows the closing bracket. -/
def classScan (c : Nat) : List Nat → Bool → Bool × List Nat
  | [], m => (m, [])
  | [x], m => if x = 93 then (m, []) else (m || x == c, [])
  | x :: t@([y]), m =>
    if x = 92 then (m || y == c, [])
    else if x = 93 then (m, t)
    else classScan c t (m || x == c)
  | x :: t@(y :: t'@(e :: rest)), m =>
    if x = 92 then classScan c t' (m || y == c)
    else if x = 93 then (m, t)
    else if y = 45 then classScan c rest (m || (decide (min x e ≤ c) && decide (c ≤ max x e)))
    else classScan c t (m || x == c)

/-- Glob matching of a pattern against a key, both as bytes; the first argument bounds
the number of pattern bytes still to be consumed. -/
def globAux : Nat → List Nat → List Nat → Bool
  | 0, _, _ => false
  | _ + 1, [], s => s.isEmpty
  | _ + 1, _ :: _, [] => false
  | fuel + 1, p :: ps, c :: cs =>
    if p = 42 then
      match ps with
      | [] => true
      | q :: _ =>
        if q = 42 then globAux fuel ps (c :: cs)
        else ((c :: cs).tails.filter (fun t => !t.isEmpty)).any (fun t => globAux fuel ps t)
    else if p = 63 then
      if cs.isEmpty then (ps.dropWhile (fun b => b == 42)).isEmpty else globAux fuel ps cs
    else if p = 91 then
      let neg := ps.head? == some 94
      let r := classScan c (if neg then ps.tail else ps) false
      if (if neg then !r.1 else r.1) then
        if cs.isEmpty then (r.2.dropWhile (fun b => b == 42)).isEmpty else globAux fuel r.2 cs
      else false
    else if p = 92 then
      match ps with
      | q :: ps' =>
        if q = c then
          if cs.isEmpty then (ps'.dropWhile (fun b => b == 42)).isEmpty else globAux fuel ps' cs
        else false
      | [] => if p = c then cs.isEmpty else false
    else if p = c then
      if cs.isEmpty then (ps.dropWhile (fun b => b == 42)).isEmpty else globAux fuel ps cs
    else false

/-- Whether the scan with `MATCH pattern` selects `key`; the pattern `*` selects every
key without matching. -/
def scanMatches (pattern key : String) : Bool :=
  pattern == "*" || globAux ((toBytes pattern).length + 1) (toBytes pattern) (toBytes key)

/-- The iteration of a scan that succeeds on the given content: every matching key
once, in the order of the content. -/
def scanOf (data : List Entry) (pattern : String) : ScanIterator :=
  ⟨(data.map Entry.key).filter (scanMatches pattern), none⟩

/-- The scan over `pattern` is complete and without error: it yields the matching keys
of the store and only those (in any order, possibly more than once). -/
def ScanFaithful (R : Redis) (pattern : String) : Prop :=
  (R.scanner R.data pattern).err = none ∧
    ∀ k, k ∈ (R.scanner R.data pattern).keys ↔
      (k ∈ R.data.map Entry.key ∧ scanMatches pattern k = true)

/-- No command fails, whenever it is sent. -/
def NoFaults (R : Redis) : Prop :=
  ∀ n c, R.faults n c = none

/-- A store with the given content on which no command fails and every scan is
complete. -/
def Redis.ofData (data : List Entry) : Redis :=
  { data := data, trace := [], faults := fun _ _ => none, scanner := scanOf }

/-! ## `redis_config.go`: the client wrapper -/

/-- An operand of a log line. -/
inductive LogArg where
  | str (s : String)
  | num (n : Nat)
  | dur (d : Duration)
  deriving DecidableEq, Repr

/-- A call of `log.Printf` or `log.Println`: the format and its operands. -/
structure LogLine where
  format : String
  args : List LogArg
  deriving DecidableEq, Repr

/-- The struct `RedisClient`; `Client` is `none` for a nil pointer. The context and its
cancel function are not modelled. -/
structure RedisClient where
  Client : Option Redis

/-- The method `(*RedisClient).IsHealthy`: the verdict, the client after the probe and
the lines logged. -/
def RedisClient.IsHealthy (rc : RedisClient) : Bool × RedisClient × List LogLine :=
  match rc.Client with
  | none => (false, rc, [])
  | some R =>
    match R.Ping with
    | (some err, R') => (false, ⟨some R'⟩, [⟨"Redis health check failed: %v", [.str err.msg]⟩])
    | (none, R') => (true, ⟨some R'⟩, [])

/-- The method `(*RedisClient).SetWithExpiry`, on a client that is not nil. -/
def SetWithExpiry (R : Redis) (key value : String) (expiration : Duration) :
    Option String × Redis :=
  match R.Set key value expiration with
  | (some err, R') => (some (Errorf "failed to set key %s in Redis: %v" [.str key, .str err.msg]), R')
  | (none, R') => (none, R')

/-- The method `(*RedisClient).Get`, on a client that is not nil. -/
def Get (R : Redis) (key : String) : Except String String × Redis :=
  match R.Get key with
  | (.error .Nil, R') => (.error (Errorf "key %s not found in Redis" [.str key]), R')
  | (.error err, R') =>
    (.error (Errorf "failed to get key %s from Redis: %v" [.str key, .str err.msg]), R')
  | (.ok val, R') => (.ok val, R')

/-- The method `(*RedisClient).Delete`, on a client that is not nil. -/
def Delete (R : Redis) (key : String) : Option String × Redis :=
  match R.Del key with
  | (some err, R') =>
    (some (Errorf "failed to delete key %s from Redis: %v" [.str key, .str err.msg]), R')
  | (none, R') => (none, R')

/-! ## `cache_utils.go`: the cache operations -/

/-- The struct `CacheUtils`, together with the output of the standard logger so far
(`Log`). `RedisClient` is `none` for a nil pointer. -/
structure CacheUtils where
  RedisClient : Option RedisClient
  DefaultTTL : Duration
  Log : List LogLine

namespace CacheUtils

/-- The store behind the receiver, if there is one. -/
def redis (cu : CacheUtils) : Option Redis :=
  cu.RedisClient.bind RedisClient.Client

/-- The content of the store behind the receiver. -/
def data (cu : CacheUtils) : List Entry :=
  match cu.redis with
  | some R => R.data
  | none => []

/-- The commands issued to the store behind the receiver. -/
def trace (cu : CacheUtils) : List Call :=
  match cu.redis with
  | some R => R.trace
  | none => []

/-- The entry stored under `key` in the store behind the receiver, if any. -/
def lookup (cu : CacheUtils) (key : String) : Option Entry :=
  cu.data.find? (fun e => e.key = key)

/-- The receiver after an operation left the store as `R` and logged `lines`. -/
def update (cu : CacheUtils) (R : Redis) (lines : List LogLine) : CacheUtils :=
  { cu with RedisClient := some ⟨some R⟩, Log := cu.Log ++ lines }

/-- The guard `cu.RedisClient == nil || !cu.RedisClient.IsHealthy()` that opens every
operation: `none` with the receiver after the probe when the guard holds, otherwise the
live store after the probe. -/
def healthy (cu : CacheUtils) : Option Redis × CacheUtils :=
  match cu.RedisClient with
  | none => (none, cu)
  | some rc =>
    match rc.IsHealthy with
    | (true, ⟨some R⟩, lines) => (some R, { cu with RedisClient := some ⟨some R⟩, Log := cu.Log ++ lines })
    | (_, rc', lines) => (none, { cu with RedisClient := some rc', Log := cu.Log ++ lines })

end CacheUtils

/-- The encoding of cached values: `json.Marshal` and `json.Unmarshal` at the type of
the cached value. -/
structure Codec (V : Type) where
  Marshal : V → Except String String
  Unmarshal : String → Except String V

/-- Lines 54 to 60 and 89 to 95: the key of an API response; `queryParams` are the
entries of the map in the order the `range` loop visits them. -/
def apiCacheKey (endpoint : String) (queryParams : List (String × String)) : String :=
  let paramStrs := queryParams.map (fun kv => Sprintf "%s=%s" [.str kv.1, .str kv.2])
  let keyInput := [endpoint] ++ paramStrs
  generateCacheKey APIPrefix keyInput

/-- The prefix selected by `dataType` in the blockchain operations. -/
def blockchainPrefix (dataType : String) : String :=
  if dataType = "transaction" then BlockchainPrefix ++ TransactionPrefix
  else if dataType = "account" then BlockchainPrefix ++ AccountPrefix
  else BlockchainPrefix

/-- Lines 119 to 126, 155 to 162 and 231 to 244: the key of a blockchain entry. -/
def blockchainCacheKey (dataType identifier : String) : String :=
  let pfx := blockchainPrefix dataType
  generateCacheKey pfx [identifier]

/-- The text of the error every operation returns when its guard holds. -/
def errUnavailable : String :=
  Errorf "Redis client is not initialized or unhealthy" []

/-- The method `(*CacheUtils).CacheAPIResponse`. -/
def CacheAPIResponse {V : Type} (codec : Codec V) (cu : CacheUtils) (endpoint : String)
    (queryParams : List (String × String)) (response : V) (ttl : Duration) :
    Option String × CacheUtils :=
  match cu.healthy with
  | (none, cu') => (some errUnavailable, cu')
  | (some R, cu') =>
    let cacheKey := apiCacheKey endpoint queryParams
    match codec.Marshal response with
    | .error err =>
      (some (Errorf "failed to serialize API response for caching: %v" [.str err]), cu')
    | .ok data =>
      let ttl := if ttl = 0 then cu.DefaultTTL else ttl
      match SetWithExpiry R cacheKey data ttl with
      | (some err, R') =>
        (some (Errorf "failed to cache API response for key %s: %v" [.str cacheKey, .str err]),
          cu'.update R' [])
      | (none, R') =>
        (none, cu'.update R'
          [⟨"Cached API response for key: %s with TTL: %v", [.str cacheKey, .dur ttl]⟩])

/-- The method `(*CacheUtils).GetCachedAPIResponse`: the flag, the error, and the value
decoded into `response` (`none` when nothing was decoded). -/
def GetCachedAPIResponse {V : Type} (codec : Codec V) (cu : CacheUtils) (endpoint : String)
    (queryParams : List (String × String)) : (Bool × Option String × Option V) × CacheUtils :=
  match cu.healthy with
  | (none, cu') => ((false, some errUnavailable, none), cu')
  | (some R, cu') =>
    let cacheKey := apiCacheKey endpoint queryParams
    match Get R cacheKey with
    | (.error err, R') =>
      ((false, some (Errorf "failed to retrieve cached API response for key %s: %v"
        [.str cacheKey, .str err]), none), cu'.update R' [])
    | (.ok data, R') =>
      match codec.Unmarshal data with
      | .error err =>
        ((false, some (Errorf "failed to deserialize cached API response for key %s: %v"
          [.str cacheKey, .str err]), none), cu'.update R' [])
      | .ok v =>
        ((true, none, some v),
          cu'.update R' [⟨"Retrieved cached API response for key: %s", [.str cacheKey]⟩])

/-- The method `(*CacheUtils).CacheBlockchainData`. -/
def CacheBlockchainData {V : Type} (codec : Codec V) (cu : CacheUtils)
    (dataType identifier : String) (data : V) (ttl : Duration) : Option String × CacheUtils :=
  match cu.healthy with
  | (none, cu') => (some errUnavailable, cu')
  | (some R, cu') =>
    let cacheKey := blockchainCacheKey dataType identifier
    match codec.Marshal data with
    | .error err =>
      (some (Errorf "failed to serialize blockchain data for caching: %v" [.str err]), cu')
    | .ok jsonData =>
      let ttl := if ttl = 0 then cu.DefaultTTL else ttl
      match SetWithExpiry R cacheKey jsonData ttl with
      | (some err, R') =>
        (some (Errorf "failed to cache blockchain data for key %s: %v" [.str cacheKey, .str err]),
          cu'.update R' [])
      | (none, R') =>
        (none, cu'.update R'
          [⟨"Cached blockchain data for key: %s with TTL: %v", [.str cacheKey, .dur ttl]⟩])

/-- The method `(*CacheUtils).GetCachedBlockchainData`: the flag, the error, and the
value decoded into `result` (`none` when nothing was decoded). -/
def GetCachedBlockchainData {V : Type} (codec : Codec V) (cu : CacheUtils)
    (dataType identifier : String) : (Bool × Option String × Option V) × CacheUtils :=
  match cu.healthy with
  | (none, cu') => ((false, some errUnavailable, none), cu')
  | (some R, cu') =>
    let cacheKey := blockchainCacheKey dataType identifier
    match Get R cacheKey with
    | (.error err, R') =>
      ((false, some (Errorf "failed to retrieve cached blockchain data for key %s: %v"
        [.str cacheKey, .str err]), none), cu'.update R' [])
    | (.ok data, R') =>
      match codec.Unmarshal data with
      | .error err =>
        ((false, some (Errorf "failed to deserialize cached blockchain data for key %s: %v"
          [.str cacheKey, .str err]), none), cu'.update R' [])
      | .ok v =>
        ((true, none, some v),
          cu'.update R' [⟨"Retrieved cached blockchain data for key: %s", [.str cacheKey]⟩])

/-- The loop of `InvalidateCacheByPrefix` over the keys the iterator yields: the store,
the lines logged and the counter `count` when the loop ends. -/
def deleteLoop : List String → Redis → List LogLine → Nat → Redis × List LogLine × Nat
  | [], R, lines, count => (R, lines, count)
  | key :: rest, R, lines, count =>
    match Delete R key with
    | (some err, R') =>
      deleteLoop rest R'
        (lines ++ [⟨"Failed to delete cache key %s during invalidation: %v", [.str key, .str err]⟩])
        count
    | (none, R') => deleteLoop rest R' lines (count + 1)

/-- The method `(*CacheUtils).InvalidateCacheByPrefix`. -/
def InvalidateCacheByPrefix (cu : CacheUtils) (pfx : String) : Option String × CacheUtils :=
  match cu.healthy with
  | (none, cu') => (some errUnavailable, cu')
  | (some R, cu') =>
    match R.Scan (pfx ++ "*") with
    | (iter, R₁) =>
      match deleteLoop iter.keys R₁ [] 0 with
      | (R₂, lines, count) =>
        match iter.err with
        | some err =>
          (some (Errorf "error scanning cache keys with prefix %s: %v" [.str pfx, .str err.msg]),
            cu'.update R₂ lines)
        | none =>
          (none, cu'.update R₂
            (lines ++ [⟨"Invalidated %d cache entries with prefix: %s", [.num count, .str pfx]⟩]))

/-- The method `(*CacheUtils).InvalidateCacheByKey`. -/
def InvalidateCacheByKey (cu : CacheUtils) (key : String) : Option String × CacheUtils :=
  match cu.healthy with
  | (none, cu') => (some errUnavailable, cu')
  | (some R, cu') =>
    match Delete R key with
    | (some err, R') =>
      (some (Errorf "failed to invalidate cache for key %s: %v" [.str key, .str err]),
        cu'.update R' [])
    | (none, R') => (none, cu'.update R' [⟨"Invalidated cache for key: %s", [.str key]⟩])

/-- The method `(*CacheUtils).InvalidateBlockchainCache`; after its own guard it calls
one of the two methods above, which run their guard again. -/
def InvalidateBlockchainCache (cu : CacheUtils) (dataType identifier : String) :
    Option String × CacheUtils :=
  match cu.healthy with
  | (none, cu') => (some errUnavailable, cu')
  | (some _, cu') =>
    let pfx := blockchainPrefix dataType
    if identifier = "" then InvalidateCacheByPrefix cu' pfx
    else
      let cacheKey := blockchainCacheKey dataType identifier
      InvalidateCacheByKey cu' cacheKey

/-- The method `(*CacheUtils).SetCacheTTL`. -/
def SetCacheTTL (cu : CacheUtils) (key : String) (ttl : Duration) : Option String × CacheUtils :=
  match cu.healthy with
  | (none, cu') => (some errUnavailable, cu')
  | (some R, cu') =>
    match Get R key with
    | (.error err, R') =>
      (some (Errorf "cache key %s not found or error retrieving: %v" [.str key, .str err]),
        cu'.update R' [])
    | (.ok _, R') =>
      match R'.Expire key ttl with
      | (some err, R₂) =>
        (some (Errorf "failed to set TTL for cache key %s: %v" [.str key, .str err.msg]),
          cu'.update R₂ [])
      | (none, R₂) =>
        (none, cu'.update R₂ [⟨"Updated TTL for cache key %s to %v", [.str key, .dur ttl]⟩])

/-- The method `(*CacheUtils).GetCacheTTL`. -/
def GetCacheTTL (cu : CacheUtils) (key : String) : (Duration × Option String) × CacheUtils :=
  match cu.healthy with
  | (none, cu') => ((0, some errUnavailable), cu')
  | (some R, cu') =>
    match R.TTL key with
    | ((_, some err), R') =>
      ((0, some (Errorf "failed to get TTL for cache key %s: %v" [.str key, .str err.msg])),
        cu'.update R' [])
    | ((ttl, none), R') =>
      if ttl < 0 then
        ((0, some (Errorf "cache key %s does not exist or has no TTL" [.str key])),
          cu'.update R' [])
      else
        ((ttl, none),
          cu'.update R' [⟨"Retrieved TTL for cache key %s: %v", [.str key, .dur ttl]⟩])

/-! ## `redis_config.go`: loading the configuration -/

/-- The struct `RedisConfig`. -/
structure RedisConfig where
  Host : String
  Port : Int
  Password : String
  DB : Int
  PoolSize : Int
  MinIdleConns : Int
  MaxConnAge : Duration
  IdleTimeout : Duration
  SentinelEnabled : Bool
  SentinelMaster : String
  SentinelAddresses : List String
  deriving DecidableEq, Repr

/-- Two lower-case hexadecimal digits of a byte. -/
def hex2 (n : Nat) : String :=
  (Nat.digitChar (n / 16)).toString ++ (Nat.digitChar (n % 16)).toString

/-- One character as `strconv.Quote` writes it: the quote and the backslash are
escaped, the control characters of ASCII are written as escapes; a character outside
ASCII is taken to be printable. -/
def quoteChar (c : Char) : String :=
  let bs := (Char.ofNat 92).toString
  let n := c.toNat
  if n = 34 ∨ n = 92 then bs ++ c.toString
  else if n = 7 then bs ++ "a"
  else if n = 8 then bs ++ "b"
  else if n = 12 then bs ++ "f"
  else if n = 10 then bs ++ "n"
  else if n = 13 then bs ++ "r"
  else if n = 9 then bs ++ "t"
  else if n = 11 then bs ++ "v"
  else if n < 32 ∨ n = 127 then bs ++ "x" ++ hex2 n
  else c.toString

/-- Go `strconv.Quote`, the text `strconv` puts around the input of a failed
conversion. -/
def quote (s : String) : String :=
  (Char.ofNat 34).toString ++ String.join (s.data.map quoteChar) ++ (Char.ofNat 34).toString

/-- The two failures of a conversion in `strconv`. -/
inductive NumError where
  | ErrSyntax
  | ErrRange
  deriving DecidableEq, Repr

/-- The text of a failed `strconv.Atoi`. -/
def NumError.text (e : NumError) (s : String) : String :=
  match e with
  | .ErrSyntax => "strconv.Atoi: parsing " ++ quote s ++ ": invalid syntax"
  | .ErrRange => "strconv.Atoi: parsing " ++ quote s ++ ": value out of range"

/-- The value of a non-empty run of decimal digits. -/
def parseDigits (cs : List Char) : Option Nat :=
  if cs.isEmpty then none
  else cs.foldl
    (fun acc ch => acc.bind (fun n => if ch.isDigit then some (n * 10 + (ch.toNat - 48)) else none))
    (some 0)

/-- The loop of `strconv.ParseUint` in base 10 at 64 bits: the characters are read in
order, and the first failure met is reported. -/
def parseUintLoop : List Char → Nat → Except NumError Nat
  | [], n => .ok n
  | c :: cs, n =>
    if c.isDigit then
      if 1844674407370955162 ≤ n then .error .ErrRange
      else if 18446744073709551615 < n * 10 + (c.toNat - 48) then .error .ErrRange
      else parseUintLoop cs (n * 10 + (c.toNat - 48))
    else .error .ErrSyntax

/-- Go `strconv.ParseInt(s, 10, 0)` on a 64-bit platform. -/
def ParseInt (cs : List Char) : Except NumError Int :=
  match cs with
  | [] => .error .ErrSyntax
  | c :: r =>
    let neg : Bool := c = '-'
    let digits : List Char := if c = '-' ∨ c = '+' then r else c :: r
    if digits.isEmpty then .error .ErrSyntax
    else
      match parseUintLoop digits 0 with
      | .error e => .error e
      | .ok un =>
        if !neg ∧ 9223372036854775808 ≤ un then .error .ErrRange
        else if neg ∧ 9223372036854775808 < un then .error .ErrRange
        else .ok (if neg then -(un : Int) else (un : Int))

/-- Go `strconv.Atoi` on a 64-bit platform: an input of fewer than 19 bytes is read by
the fast path, any other by `ParseInt`. -/
def Atoi (s : String) : Except String Int :=
  let sLen := (toBytes s).length
  if 0 < sLen ∧ sLen < 19 then
    let signed : Bool × List Char :=
      match s.data with
      | c :: r => if c = '-' then (true, r) else if c = '+' then (false, r) else (false, c :: r)
      | [] => (false, [])
    match parseDigits signed.2 with
    | none => .error (NumError.ErrSyntax.text s)
    | some n => .ok (if signed.1 then -(n : Int) else (n : Int))
  else
    match ParseInt s.data with
    | .error e => .error (e.text s)
    | .ok v => .ok v

/-- Go `strconv.ParseBool`. -/
def ParseBool (str : String) : Except String Bool :=
  if str = "1" ∨ str = "t" ∨ str = "T" ∨ str = "true" ∨ str = "TRUE" ∨ str = "True" then .ok true
  else if str = "0" ∨ str = "f" ∨ str = "F" ∨ str = "false" ∨ str = "FALSE" ∨ str = "False" then
    .ok false
  else .error ("strconv.ParseBool: parsing " ++ quote str ++ ": invalid syntax")

/-- Multiplication of two `time.Duration` values, in `int64`. -/
def mulDuration (a b : Int) : Duration :=
  (a * b + 2 ^ 63) % 2 ^ 64 - 2 ^ 63

/-- The function `splitCommaSeparated`: the loop keeps the items found so far and the
item being read. -/
def splitCommaSeparated (input : String) : List String :=
  if input = "" then []
  else
    let st : List String × String :=
      input.data.foldl
        (fun (st : List String × String) (char : Char) =>
          if char = ',' then
            if st.2 ≠ "" then (st.1 ++ [st.2], "") else st
          else if char ≠ ' ' then (st.1, st.2 ++ char.toString)
          else st)
        ([], "")
    if st.2 ≠ "" then st.1 ++ [st.2] else st.1

/-- The function `LoadRedisConfig`; `env` is `os.Getenv` once the `.env` file, if
there is one, has been loaded. -/
def LoadRedisConfig (env : String → String) : Except String RedisConfig :=
  match Atoi (env "REDIS_PORT") with
  | .error err => .error (Errorf "invalid REDIS_PORT value: %v" [.str err])
  | .ok port =>
  match Atoi (env "REDIS_DB") with
  | .error err => .error (Errorf "invalid REDIS_DB value: %v" [.str err])
  | .ok db =>
  match Atoi (env "REDIS_POOL_SIZE") with
  | .error err => .error (Errorf "invalid REDIS_POOL_SIZE value: %v" [.str err])
  | .ok poolSize =>
  match Atoi (env "REDIS_MIN_IDLE_CONNS") with
  | .error err => .error (Errorf "invalid REDIS_MIN_IDLE_CONNS value: %v" [.str err])
  | .ok minIdleConns =>
  match Atoi (env "REDIS_MAX_CONN_AGE") with
  | .error err => .error (Errorf "invalid REDIS_MAX_CONN_AGE value: %v" [.str err])
  | .ok maxConnAgeSeconds =>
  match Atoi (env "REDIS_IDLE_TIMEOUT") with
  | .error err => .error (Errorf "invalid REDIS_IDLE_TIMEOUT value: %v" [.str err])
  | .ok idleTimeoutSeconds =>
  match ParseBool (env "REDIS_SENTINEL_ENABLED") with
  | .error err => .error (Errorf "invalid REDIS_SENTINEL_ENABLED value: %v" [.str err])
  | .ok sentinelEnabled =>
  let addresses : Except String (List String) :=
    if sentinelEnabled then
      if env "REDIS_SENTINEL_ADDRESSES" = "" then
        .error (Errorf "REDIS_SENTINEL_ADDRESSES must be set when Sentinel is enabled" [])
      else .ok (splitCommaSeparated (env "REDIS_SENTINEL_ADDRESSES"))
    else .ok []
  match addresses with
  | .error err => .error err
  | .ok sentinelAddresses =>
  let config : RedisConfig :=
    { Host := env "REDIS_HOST"
      Port := port
      Password := env "REDIS_PASSWORD"
      DB := db
      PoolSize := poolSize
      MinIdleConns := minIdleConns
      MaxConnAge := mulDuration maxConnAgeSeconds Second
      IdleTimeout := mulDuration idleTimeoutSeconds Second
      SentinelEnabled := sentinelEnabled
      SentinelMaster := env "REDIS_SENTINEL_MASTER"
      SentinelAddresses := sentinelAddresses }
  if config.Host = "" then .error (Errorf "REDIS_HOST is required" [])
  else if config.SentinelEnabled ∧ config.SentinelMaster = "" then
    .error (Errorf "REDIS_SENTINEL_MASTER is required when Sentinel is enabled" [])
  else .ok config

/-- An environment with failover enabled whose address list holds only separators. -/
def envSeparatorsOnly (name : String) : String :=
  if name = "REDIS_HOST" then "localhost"
  else if name = "REDIS_PORT" then "6379"
  else if name = "REDIS_DB" then "0"
  else if name = "REDIS_POOL_SIZE" then "10"
  else if name = "REDIS_MIN_IDLE_CONNS" then "2"
  else if name = "REDIS_MAX_CONN_AGE" then "300"
  else if name = "REDIS_IDLE_TIMEOUT" then "60"
  else if name = "REDIS_SENTINEL_ENABLED" then "true"
  else if name = "REDIS_SENTINEL_MASTER" then "mymaster"
  else if name = "REDIS_SENTINEL_ADDRESSES" then ", ,"
  else ""

/-! ## Concrete instances -/

/-- A codec for natural numbers written in decimal. -/
def natCodec : Codec Nat :=
  { Marshal := fun n => .ok (toString n)
    Unmarshal := fun s =>
      match parseDigits s.data with
      | some n => .ok n
      | none => .error "invalid character looking for beginning of value" }

/-- A cache over a store with the given content on which no command fails. -/
def cacheOver (data : List Entry) (defaultTTL : Duration) : CacheUtils :=
  { RedisClient := some ⟨some (Redis.ofData data)⟩, DefaultTTL := defaultTTL, Log := [] }

/-- A store with two keys under `api:` on which deleting the first one fails. -/
def flakyStore : Redis :=
  { data := [⟨"api:1:a", "x", 0⟩, ⟨"api:2:b", "y", 0⟩]
    trace := []
    faults := fun _ c => if c = Call.del "api:1:a" then some "timeout" else none
    scanner := scanOf }

/-- A cache over `flakyStore`. -/
def flakyCache : CacheUtils :=
  { RedisClient := some ⟨some flakyStore⟩, DefaultTTL := 0, Log := [] }

/-- A cache filled by two calls: a block under `blockchain:` and a transaction under
`blockchain:tx:`. -/
def mixedCache : CacheUtils :=
  (CacheBlockchainData natCodec
    (CacheBlockchainData natCodec (cacheOver [] (60 * Second)) "block" "100" 1 0).2
    "transaction" "0xabc" 2 0).2

/-- A cache filled by three calls: two accounts and a transaction. -/
def ledgerCache : CacheUtils :=
  (CacheBlockchainData natCodec
    (CacheBlockchainData natCodec
      (CacheBlockchainData natCodec (cacheOver [] (60 * Second)) "account" "0xabc" 1 0).2
      "account" "0xdef" 2 0).2
    "transaction" "0x1" 3 0).2

/-- A cache over a store whose probe fails. -/
def downCache : CacheUtils :=
  { RedisClient := some ⟨some
      { data := [⟨"api:1:a", "x", 0⟩]
        trace := []
        faults := fun _ c => if c = Call.ping then some "connection refused" else none
        scanner := scanOf }⟩
    DefaultTTL := 60
    Log := [] }

/-! ## Specification-side definitions -/

/-- FNV-1a, 64 bit, as the specification words it: start from the offset basis; for
each byte, xor it into the hash, then multiply by the prime, modulo `2 ^ 64`. -/
def fnv1a64From (h : Nat) : List Nat → Nat
  | [] => h
  | b :: bs => fnv1a64From (((h ^^^ b) * 1099511628211) % 18446744073709551616) bs

/-- The FNV-1a hash of a sequence of bytes. -/
def fnv1a64 (bytes : List Nat) : Nat :=
  fnv1a64From 14695981039346656037 bytes

/-- The four namespace prefixes under which keys are written. -/
def namespacePrefixes : List String :=
  [APIPrefix, BlockchainPrefix, BlockchainPrefix ++ TransactionPrefix,
    BlockchainPrefix ++ AccountPrefix]

/-- A string of ASCII characters none of which is special in a pattern. -/
def Plain (p : String) : Prop :=
  ∀ c ∈ p.data, c.toNat < 128 ∧ c.toNat ≠ 42 ∧ c.toNat ≠ 63 ∧ c.toNat ≠ 91 ∧ c.toNat ≠ 92

/-- The number of keys of an enumeration whose delete does not fail, when the delete of
the first key is sent as command number `t`. -/
def successes (faults : Nat → Call → Option String) : Nat → List String → Nat
  | _, [] => 0
  | t, k :: ks => (if (faults t (.del k)).isNone then 1 else 0) + successes faults (t + 1) ks

/-- The enumeration that `InvalidateCacheByPrefix` walks on a client whose probe
succeeded. -/
def enumeration (R : Redis) (pfx : String) : ScanIterator :=
  ((R.issue .ping).Scan (pfx ++ "*")).1

/-- The guard of every operation holds: there is no client, or its probe fails. -/
def Unavailable (cu : CacheUtils) : Prop :=
  match cu.redis with
  | none => True
  | some R => R.fault .ping ≠ none

/-- Between `cu` and `cu'` the content of the store is the same and at most one probe
was sent to it, nothing else. -/
def Untouched (cu cu' : CacheUtils) : Prop :=
  cu'.data = cu.data ∧ (cu'.trace = cu.trace ∨ cu'.trace = cu.trace ++ [Call.ping])

/-! ## Key derivation -/

theorem sum64aWrite_eq (h : Nat) (data : List Nat) : sum64aWrite h data = fnv1a64From h data := by
  induction data generalizing h with
  | nil => rfl
  | cons b bs ih =>
    simp only [sum64aWrite, List.foldl_cons, fnv1a64From] at ih ⊢
    exact ih _

theorem intercalate_go (acc sep : String) (l : List String) :
    String.intercalate.go acc sep l = l.foldl (fun a s => a ++ sep ++ s) acc := by
  induction l generalizing acc with
  | nil => rfl
  | cons a as ih => simp [String.intercalate.go, ih]

theorem foldl_sep_append (x sep : String) (l : List String) (acc : String) :
    l.foldl (fun a s => a ++ sep ++ s) (x ++ acc) = x ++ l.foldl (fun a s => a ++ sep ++ s) acc := by
  induction l generalizing acc with
  | nil => rfl
  | cons a as ih =>
    simp only [List.foldl_cons]
    have h : x ++ acc ++ sep ++ a = x ++ (acc ++ sep ++ a) := by simp [String.append_assoc]
    rw [h, ih]

theorem Join_eq_intercalate (params : List String) (sep : String) :
    Join params sep = String.intercalate sep params := by
  induction params with
  | nil => rfl
  | cons a rest ih =>
    cases rest with
    | nil => rfl
    | cons b rest' =>
      simp only [Join, ih, String.intercalate, intercalate_go, List.foldl_cons]
      exact (foldl_sep_append (a ++ sep) sep rest' b).symm

theorem Sprintf_key (p : String) (h : Nat) (j : String) :
    Sprintf "%s%d:%s" [.str p, .num h, .str j] = p ++ toString h ++ ":" ++ j := by
  simp [Sprintf, sprintfAux, renderArg, String.append_assoc]
  rfl

theorem generateCacheKey_unfold (pfx : String) (params : List String) :
    generateCacheKey pfx params
      = pfx ++ toString (fnv1a64 (toBytes (Join params ":"))) ++ ":" ++ Join params ":" := by
  simp only [generateCacheKey, Sprintf_key, New64a, Sum64, sum64aWrite_eq, fnv1a64, offset64]

/-- C1: the key is the prefix, then the decimal FNV-1a hash of the bytes of the
parameters joined with a colon, then a colon, then the joined parameters; the prefix is
not hashed. -/
theorem generateCacheKey_spec (pfx : String) (params : List String) :
    generateCacheKey pfx params
      = pfx ++ toString (fnv1a64 (toBytes (String.intercalate ":" params))) ++ ":"
          ++ String.intercalate ":" params := by
  rw [generateCacheKey_unfold, Join_eq_intercalate]

/-! ## Shape of a key: decimal digits, then a colon -/

theorem digitChar_isDigit (n : Nat) (h : n < 10) : (Nat.digitChar n).isDigit = true := by
  interval_cases n <;> decide

theorem toDigitsCore_isDigit (fuel n : Nat) (ds : List Char)
    (hds : ∀ c ∈ ds, c.isDigit = true) :
    ∀ c ∈ Nat.toDigitsCore 10 fuel n ds, c.isDigit = true := by
  induction fuel generalizing n ds with
  | zero => simpa [Nat.toDigitsCore] using hds
  | succ f ih =>
    have hd : (Nat.digitChar (n % 10)).isDigit = true :=
      digitChar_isDigit _ (Nat.mod_lt _ (by decide))
    have hcons : ∀ c ∈ Nat.digitChar (n % 10) :: ds, c.isDigit = true := by
      intro c hc
      rcases List.mem_cons.mp hc with rfl | hc
      · exact hd
      · exact hds c hc
    unfold Nat.toDigitsCore
    by_cases h0 : n / 10 = 0
    · simpa only [h0, if_true] using hcons
    · simpa only [h0, if_false] using ih _ _ hcons

theorem toDigitsCore_ne_nil (fuel n : Nat) (ds : List Char) :
    Nat.toDigitsCore 10 (fuel + 1) n ds ≠ [] := by
  induction fuel generalizing n ds with
  | zero =>
    unfold Nat.toDigitsCore
    by_cases h0 : n / 10 = 0 <;> simp [h0, Nat.toDigitsCore]
  | succ f ih =>
    unfold Nat.toDigitsCore
    by_cases h0 : n / 10 = 0
    · simp [h0]
    · simpa only [h0, if_false] using ih _ _

theorem toString_data_isDigit (n : Nat) : ∀ c ∈ (toString n).data, c.isDigit = true :=
  toDigitsCore_isDigit _ _ _ (by simp)

theorem toString_data_ne_nil (n : Nat) : (toString n).data ≠ [] :=
  toDigitsCore_ne_nil _ _ _

/-- The characters of a key: the prefix, a non-empty run of digits, a colon, the joined
parameters. -/
theorem generateCacheKey_data (pfx : String) (params : List String) :
    ∃ ds : List Char, ds ≠ [] ∧ (∀ c ∈ ds, c.isDigit = true) ∧
      (generateCacheKey pfx params).data = pfx.data ++ (ds ++ ':' :: (Join params ":").data) := by
  refine ⟨(toString (fnv1a64 (toBytes (Join params ":")))).data, toString_data_ne_nil _,
    toString_data_isDigit _, ?_⟩
  rw [generateCacheKey_unfold]
  simp [String.data_append]

theorem digits_colon_inj (ds₁ ds₂ j₁ j₂ : List Char)
    (h₁ : ∀ c ∈ ds₁, c.isDigit = true) (h₂ : ∀ c ∈ ds₂, c.isDigit = true)
    (h : ds₁ ++ ':' :: j₁ = ds₂ ++ ':' :: j₂) : j₁ = j₂ := by
  induction ds₁ generalizing ds₂ with
  | nil =>
    cases ds₂ with
    | nil => simpa using h
    | cons d ds =>
      simp only [List.nil_append, List.cons_append, List.cons.injEq] at h
      have := h₂ d (by simp)
      rw [← h.1] at this
      exact absurd this (by decide)
  | cons c cs ih =>
    cases ds₂ with
    | nil =>
      simp only [List.nil_append, List.cons_append, List.cons.injEq] at h
      have := h₁ c (by simp)
      rw [h.1] at this
      exact absurd this (by decide)
    | cons d ds =>
      simp only [List.cons_append, List.cons.injEq] at h
      exact ih ds (fun x hx => h₁ x (by simp [hx])) (fun x hx => h₂ x (by simp [hx])) h.2

theorem digits_head (ds rest rest' : List Char) (c : Char) (hne : ds ≠ [])
    (hd : ∀ x ∈ ds, x.isDigit = true) (hc : c.isDigit = false)
    (h : ds ++ rest = c :: rest') : False := by
  cases ds with
  | nil => exact hne rfl
  | cons d ds' =>
    simp only [List.cons_append, List.cons.injEq] at h
    have := hd d (by simp)
    rw [h.1, hc] at this
    exact Bool.noConfusion this

theorem APIPrefix_data : APIPrefix.data = ['a', 'p', 'i', ':'] := rfl

theorem BlockchainPrefix_data :
    BlockchainPrefix.data = ['b', 'l', 'o', 'c', 'k', 'c', 'h', 'a', 'i', 'n', ':'] := rfl

theorem TransactionPrefix_data :
    (BlockchainPrefix ++ TransactionPrefix).data = BlockchainPrefix.data ++ ['t', 'x', ':'] := rfl

theorem AccountPrefix_data :
    (BlockchainPrefix ++ AccountPrefix).data
      = BlockchainPrefix.data ++ ['a', 'c', 'c', 'o', 'u', 'n', 't', ':'] := rfl

/-- Two keys under namespace prefixes are equal only if the prefixes and the joined
parameters are. -/
theorem key_eq_imp (p₁ p₂ : String) (params₁ params₂ : List String)
    (h₁ : p₁ ∈ namespacePrefixes) (h₂ : p₂ ∈ namespacePrefixes)
    (hk : generateCacheKey p₁ params₁ = generateCacheKey p₂ params₂) :
    p₁ = p₂ ∧ Join params₁ ":" = Join params₂ ":" := by
  obtain ⟨d₁, hn₁, hd₁, e₁⟩ := generateCacheKey_data p₁ params₁
  obtain ⟨d₂, hn₂, hd₂, e₂⟩ := generateCacheKey_data p₂ params₂
  have hdata : p₁.data ++ (d₁ ++ ':' :: (Join params₁ ":").data)
      = p₂.data ++ (d₂ ++ ':' :: (Join params₂ ":").data) := by rw [← e₁, ← e₂, hk]
  have same : ∀ p : String, p.data ++ (d₁ ++ ':' :: (Join params₁ ":").data)
      = p.data ++ (d₂ ++ ':' :: (Join params₂ ":").data) → Join params₁ ":" = Join params₂ ":" := by
    intro p hp
    have := digits_colon_inj _ _ _ _ hd₁ hd₂ (List.append_cancel_left hp)
    exact String.ext this
  simp only [namespacePrefixes, List.mem_cons, List.mem_singleton, List.not_mem_nil, or_false]
    at h₁ h₂
  rcases h₁ with rfl | rfl | rfl | rfl <;> rcases h₂ with rfl | rfl | rfl | rfl
  all_goals first
    | exact ⟨rfl, same _ hdata⟩
    | (exfalso
       simp only [APIPrefix_data, BlockchainPrefix_data, TransactionPrefix_data, AccountPrefix_data,
         List.cons_append, List.nil_append, List.append_assoc, List.cons.injEq] at hdata
       first
         | exact digits_head _ _ _ _ hn₁ hd₁ (by decide) hdata.2.2.2.2.2.2.2.2.2.2.2
         | exact digits_head _ _ _ _ hn₂ hd₂ (by decide) hdata.2.2.2.2.2.2.2.2.2.2.2.symm
         | exact absurd hdata.1 (by decide)
         | exact absurd hdata.2.2.2.2.2.2.2.2.2.2.2.1 (by decide))

/-- C4: under the four namespace prefixes, different pairs of prefix and joined
parameters give different keys. -/
theorem generateCacheKey_injective (p₁ p₂ : String) (params₁ params₂ : List String)
    (h₁ : p₁ ∈ namespacePrefixes) (h₂ : p₂ ∈ namespacePrefixes)
    (hne : (p₁, Join params₁ ":") ≠ (p₂, Join params₂ ":")) :
    generateCacheKey p₁ params₁ ≠ generateCacheKey p₂ params₂ := by
  intro hk
  obtain ⟨hp, hj⟩ := key_eq_imp p₁ p₂ params₁ params₂ h₁ h₂ hk
  exact hne (by rw [hp, hj])

/-- C4 at two keys that share the text `blockchain:` and `tx:`. -/
theorem generateCacheKey_injective_witness :
    generateCacheKey "blockchain:" ["tx:1"] ≠ generateCacheKey "blockchain:tx:" ["1"] :=
  generateCacheKey_injective "blockchain:" "blockchain:tx:" ["tx:1"] ["1"]
    (by decide) (by decide) (by decide)

/-! ## Patterns made of a plain prefix and a star -/

theorem globAux_literal (l : List Nat) (hl : ∀ b ∈ l, b ≠ 42 ∧ b ≠ 63 ∧ b ≠ 91 ∧ b ≠ 92) :
    ∀ (fuel : Nat) (s : List Nat), l.length + 1 ≤ fuel → (l ≠ [] ∨ s ≠ []) →
      globAux fuel (l ++ [42]) s = l.isPrefixOf s := by
  induction l with
  | nil =>
    intro fuel s hf hs
    cases fuel with
    | zero => omega
    | succ f =>
      cases s with
      | nil => simp at hs
      | cons c cs => simp [globAux]
  | cons b l' ih =>
    intro fuel s hf _
    obtain ⟨h42, h63, h91, h92⟩ := hl b (by simp)
    have hl' : ∀ x ∈ l', x ≠ 42 ∧ x ≠ 63 ∧ x ≠ 91 ∧ x ≠ 92 := fun x hx => hl x (by simp [hx])
    cases fuel with
    | zero => omega
    | succ f =>
      cases s with
      | nil => simp [globAux]
      | cons c cs =>
        simp only [List.cons_append, globAux, h42, h63, h91, h92, if_false, List.isPrefixOf]
        by_cases hbc : b = c
        · subst hbc
          simp only [if_true, beq_self_eq_true, Bool.true_and]
          cases cs with
          | nil =>
            cases l' with
            | nil => simp [List.dropWhile]
            | cons b' l'' =>
              have h : (b' == 42) = false := by simpa using (hl' b' (by simp)).1
              simp [List.dropWhile, h]
          | cons c' cs' =>
            simp only [List.isEmpty_cons, Bool.false_eq_true, if_false]
            exact ih hl' f (c' :: cs') (by simp at hf ⊢; omega) (Or.inr (by simp))
        · simp [hbc]

theorem utf8EncodeChar_ascii (c : Char) (h : c.toNat < 128) : utf8EncodeChar c = [c.toNat] := by
  simp [utf8EncodeChar, h]

theorem utf8EncodeChar_head (d : Char) (h : ¬ d.toNat < 128) :
    ∃ b rest, utf8EncodeChar d = b :: rest ∧ 128 ≤ b := by
  unfold utf8EncodeChar
  simp only [h, if_false]
  split
  · exact ⟨_, _, rfl, by omega⟩
  · split
    · exact ⟨_, _, rfl, by omega⟩
    · exact ⟨_, _, rfl, by omega⟩

theorem toNat_inj (c d : Char) (h : c.toNat = d.toNat) : c = d := by
  rw [← Char.ofNat_toNat c, ← Char.ofNat_toNat d, h]

theorem toBytes_plain (cs : List Char) (h : ∀ c ∈ cs, c.toNat < 128) :
    cs.flatMap utf8EncodeChar = cs.map Char.toNat := by
  induction cs with
  | nil => rfl
  | cons c cs ih =>
    simp only [List.flatMap_cons, List.map_cons]
    rw [utf8EncodeChar_ascii c (h c (by simp)), ih (fun x hx => h x (by simp [hx]))]
    rfl

theorem isPrefixOf_bytes (cs ks : List Char) (h : ∀ c ∈ cs, c.toNat < 128) :
    (cs.map Char.toNat).isPrefixOf (ks.flatMap utf8EncodeChar) = cs.isPrefixOf ks := by
  induction cs generalizing ks with
  | nil => simp
  | cons c cs ih =>
    have hc := h c (by simp)
    have hcs : ∀ x ∈ cs, x.toNat < 128 := fun x hx => h x (by simp [hx])
    cases ks with
    | nil => simp
    | cons d ds =>
      simp only [List.map_cons, List.flatMap_cons]
      by_cases hd : d.toNat < 128
      · rw [utf8EncodeChar_ascii d hd]
        rw [List.singleton_append, List.isPrefixOf_cons₂, List.isPrefixOf_cons₂, ih ds hcs]
        by_cases hcd : c = d
        · subst hcd; simp
        · have h1 : c.toNat ≠ d.toNat := fun e => hcd (toNat_inj c d e)
          rw [beq_false_of_ne h1, beq_false_of_ne hcd]
      · obtain ⟨b, rest, hb, hge⟩ := utf8EncodeChar_head d hd
        rw [hb]
        have h1 : c.toNat ≠ b := by omega
        have h2 : c ≠ d := by rintro rfl; exact hd hc
        rw [List.cons_append, List.isPrefixOf_cons₂, List.isPrefixOf_cons₂,
          beq_false_of_ne h1, beq_false_of_ne h2, Bool.false_and, Bool.false_and]

theorem toBytes_append (a b : String) : toBytes (a ++ b) = toBytes a ++ toBytes b := by
  simp [toBytes, String.data_append]

/-- A pattern made of a plain prefix followed by a star selects the keys that start
with the prefix. -/
theorem scanMatches_plain (p k : String) (hp : Plain p) :
    scanMatches (p ++ "*") k = p.data.isPrefixOf k.data := by
  have hascii : ∀ c ∈ p.data, c.toNat < 128 := fun c hc => (hp c hc).1
  have hbytes : toBytes (p ++ "*") = p.data.map Char.toNat ++ [42] := by
    rw [toBytes_append]
    simp only [toBytes, toBytes_plain p.data hascii]
    rfl
  have hlit : ∀ b ∈ p.data.map Char.toNat, b ≠ 42 ∧ b ≠ 63 ∧ b ≠ 91 ∧ b ≠ 92 := by
    intro b hb
    obtain ⟨c, hc, rfl⟩ := List.mem_map.mp hb
    exact (hp c hc).2
  unfold scanMatches
  by_cases hnil : p.data = []
  · have : p = "" := String.ext hnil
    subst this
    simp
  · have hstar : (p ++ "*" == "*") = false := by
      rw [beq_eq_false_iff_ne]
      intro e
      have := congrArg (fun s => s.data.length) e
      simp [String.data_append] at this
      exact hnil (List.length_eq_zero.mp this)
    rw [hstar, Bool.false_or, hbytes,
      globAux_literal _ hlit _ _ (by simp) (Or.inl (by simpa using hnil))]
    exact isPrefixOf_bytes p.data k.data hascii

/-! ## The guard and the state after an operation -/

theorem update_data (cu : CacheUtils) (R : Redis) (lines : List LogLine) :
    (cu.update R lines).data = R.data := rfl

theorem update_trace (cu : CacheUtils) (R : Redis) (lines : List LogLine) :
    (cu.update R lines).trace = R.trace := rfl

theorem update_Log (cu : CacheUtils) (R : Redis) (lines : List LogLine) :
    (cu.update R lines).Log = cu.Log ++ lines := rfl

theorem update_RedisClient (cu : CacheUtils) (R : Redis) (lines : List LogLine) :
    (cu.update R lines).RedisClient = some ⟨some R⟩ := rfl

theorem update_update (cu : CacheUtils) (R R' : Redis) (l l' : List LogLine) :
    (cu.update R l).update R' l' = cu.update R' (l ++ l') := by
  simp [CacheUtils.update, List.append_assoc]

/-- With a client whose probe succeeds the guard lets the operation through. -/
theorem healthy_of_ping (cu : CacheUtils) (R : Redis) (hR : cu.RedisClient = some ⟨some R⟩)
    (hp : R.fault .ping = none) :
    cu.healthy = (some (R.issue .ping), cu.update (R.issue .ping) []) := by
  simp [CacheUtils.healthy, hR, RedisClient.IsHealthy, Redis.Ping, hp, CacheUtils.update]

theorem NoFaults.fault_none {R : Redis} (h : NoFaults R) (c : Call) : R.fault c = none :=
  h _ c

theorem NoFaults.after_issue {R : Redis} (h : NoFaults R) (c : Call) : NoFaults (R.issue c) :=
  fun n c' => h n c'

theorem Delete_ok (R : Redis) (key : String) (h : R.fault (.del key) = none) :
    Delete R key
      = (none, { R.issue (.del key) with data := R.data.filter (fun e => e.key ≠ key) }) := by
  simp [Delete, Redis.Del, h]

theorem SetWithExpiry_ok (R : Redis) (key value : String) (exp : Duration)
    (h : R.fault (.set key value exp) = none) :
    SetWithExpiry R key value exp
      = (none, { R.issue (.set key value exp) with
          data := R.data.filter (fun e => e.key ≠ key)
            ++ [⟨key, value, storedExpiration (R.lookup key) exp⟩] }) := by
  simp [SetWithExpiry, Redis.Set, h]

/-- Without faults the loop deletes every key it is given. -/
theorem deleteLoop_noFaults (keys : List String) :
    ∀ (R : Redis) (lines : List LogLine) (count : Nat), NoFaults R →
      deleteLoop keys R lines count
        = ({ R with
              data := R.data.filter (fun e => decide (e.key ∉ keys))
              trace := R.trace ++ keys.map Call.del },
            lines, count + keys.length) := by
  induction keys with
  | nil => intro R lines count _; simp [deleteLoop]
  | cons k ks ih =>
    intro R lines count hF
    have hF' : NoFaults { R.issue (.del k) with data := R.data.filter (fun e => e.key ≠ k) } :=
      fun n c => hF n c
    rw [deleteLoop, Delete_ok R k (hF.fault_none _)]
    simp only
    rw [ih _ _ _ hF']
    simp only [Redis.issue, List.filter_filter, List.map_cons, List.append_assoc,
      List.singleton_append, List.length_cons, Prod.mk.injEq, and_true]
    refine ⟨?_, ?_⟩
    · congr 1
      apply List.filter_congr
      intro e _
      simp only [List.mem_cons, not_or, Bool.decide_and, decide_not]
      exact Bool.and_comm _ _
    · exact ⟨trivial, by omega⟩

theorem Delete_trace (R : Redis) (key : String) :
    (Delete R key).2.trace = R.trace ++ [.del key] ∧ (Delete R key).2.faults = R.faults := by
  unfold Delete Redis.Del
  cases R.fault (.del key) <;> exact ⟨rfl, rfl⟩

theorem Delete_count (R : Redis) (key : String) :
    (Delete R key).1.isNone = (R.faults R.trace.length (.del key)).isNone := by
  unfold Delete Redis.Del Redis.fault
  cases R.faults R.trace.length (.del key) <;> rfl

/-- Whatever fails, the loop sends one delete for every key it is given and counts
those that succeed. -/
theorem deleteLoop_general (keys : List String) :
    ∀ (R : Redis) (lines : List LogLine) (count : Nat),
      (deleteLoop keys R lines count).1.trace = R.trace ++ keys.map Call.del ∧
      (deleteLoop keys R lines count).1.faults = R.faults ∧
      (deleteLoop keys R lines count).2.2 = count + successes R.faults R.trace.length keys := by
  induction keys with
  | nil => intro R lines count; simp [deleteLoop, successes]
  | cons k ks ih =>
    intro R lines count
    obtain ⟨ht, hf⟩ := Delete_trace R k
    have hc := Delete_count R k
    rw [deleteLoop]
    rcases hD : Delete R k with ⟨err, R'⟩
    rw [hD] at ht hf hc
    simp only at ht hf hc
    cases err with
    | none =>
      obtain ⟨h1, h2, h3⟩ := ih R' lines (count + 1)
      simp only [Option.isNone_none] at hc
      refine ⟨?_, ?_, ?_⟩
      · simp [h1, ht]
      · simp [h2, hf]
      · simp only [h3, hf, ht, successes, ← hc, List.length_append, List.length_singleton, if_true]
        omega
    | some e =>
      obtain ⟨h1, h2, h3⟩ := ih R' (lines ++
        [⟨"Failed to delete cache key %s during invalidation: %v", [.str k, .str e]⟩]) count
      simp only [Option.isNone_some] at hc
      refine ⟨?_, ?_, ?_⟩
      · simp [h1, ht]
      · simp [h2, hf]
      · simp only [h3, hf, ht, successes, ← hc, List.length_append, List.length_singleton]
        simp

/-! ## Invalidation by prefix -/

theorem Scan_trace (R : Redis) (pattern : String) :
    (R.Scan pattern).2 = R.issue (.scan pattern) := by
  unfold Redis.Scan
  cases R.fault (.scan pattern) <;> rfl

theorem InvalidateCacheByPrefix_unfold (cu : CacheUtils) (R : Redis) (pfx : String)
    (hR : cu.RedisClient = some ⟨some R⟩) (hp : R.fault .ping = none) :
    InvalidateCacheByPrefix cu pfx
      = (match (enumeration R pfx).err with
          | some err =>
            (some (Errorf "error scanning cache keys with prefix %s: %v" [.str pfx, .str err.msg]),
              cu.update
                (deleteLoop (enumeration R pfx).keys
                  ((R.issue .ping).issue (.scan (pfx ++ "*"))) [] 0).1
                (deleteLoop (enumeration R pfx).keys
                  ((R.issue .ping).issue (.scan (pfx ++ "*"))) [] 0).2.1)
          | none =>
            (none, cu.update
                (deleteLoop (enumeration R pfx).keys
                  ((R.issue .ping).issue (.scan (pfx ++ "*"))) [] 0).1
                ((deleteLoop (enumeration R pfx).keys
                  ((R.issue .ping).issue (.scan (pfx ++ "*"))) [] 0).2.1 ++
                  [⟨"Invalidated %d cache entries with prefix: %s",
                    [.num (deleteLoop (enumeration R pfx).keys
                      ((R.issue .ping).issue (.scan (pfx ++ "*"))) [] 0).2.2, .str pfx]⟩])) ) := by
  unfold InvalidateCacheByPrefix
  rw [healthy_of_ping cu R hR hp]
  simp only [enumeration]
  have h := Scan_trace (R.issue .ping) (pfx ++ "*")
  rcases hS : (R.issue .ping).Scan (pfx ++ "*") with ⟨iter, R₁⟩
  rw [hS] at h
  simp only at h
  subst h
  simp only
  cases iter.err <;> simp [update_update]

/-- C7, as the code has it: on a store whose probe succeeds, whatever the enumeration
yields and whichever deletes fail, one delete is sent for every enumerated key, in
order; an error is returned exactly when the enumeration ended with one; and when it did
not, the last line logged carries the number of deletes that succeeded. The count is
logged, it is not returned. -/
theorem InvalidateCacheByPrefix_tolerates_failures (cu : CacheUtils) (R : Redis) (pfx : String)
    (hR : cu.RedisClient = some ⟨some R⟩) (hp : R.fault .ping = none) :
    (InvalidateCacheByPrefix cu pfx).2.trace
        = R.trace ++ [.ping, .scan (pfx ++ "*")] ++ (enumeration R pfx).keys.map Call.del ∧
      ((InvalidateCacheByPrefix cu pfx).1.isSome ↔ (enumeration R pfx).err.isSome) ∧
      ((enumeration R pfx).err = none →
        (InvalidateCacheByPrefix cu pfx).2.Log.getLast?
          = some ⟨"Invalidated %d cache entries with prefix: %s",
              [.num (successes R.faults (R.trace.length + 2) (enumeration R pfx).keys),
                .str pfx]⟩) := by
  rw [InvalidateCacheByPrefix_unfold cu R pfx hR hp]
  obtain ⟨h1, _, h3⟩ := deleteLoop_general (enumeration R pfx).keys
    ((R.issue .ping).issue (.scan (pfx ++ "*"))) [] 0
  have hlen : ((R.issue .ping).issue (.scan (pfx ++ "*"))).trace.length = R.trace.length + 2 := by
    simp [Redis.issue]
  have hf : ((R.issue .ping).issue (.scan (pfx ++ "*"))).faults = R.faults := rfl
  rw [hlen, hf] at h3
  cases hE : (enumeration R pfx).err with
  | none =>
    simp only [update_trace, h1, update_Log, h3]
    refine ⟨by simp [Redis.issue], by simp, fun _ => ?_⟩
    simp
  | some e =>
    simp only [update_trace, h1]
    exact ⟨by simp [Redis.issue], by simp, fun h => by simp at h⟩

/-- C7 at a store where the first of two deletes fails: both are sent, no error is
returned, the count logged is one. -/
theorem InvalidateCacheByPrefix_tolerates_failures_witness :
    (InvalidateCacheByPrefix flakyCache "api:").2.trace
        = [.ping, .scan "api:*", .del "api:1:a", .del "api:2:b"] ∧
      (InvalidateCacheByPrefix flakyCache "api:").1 = none ∧
      (InvalidateCacheByPrefix flakyCache "api:").2.Log.getLast?
        = some ⟨"Invalidated %d cache entries with prefix: %s", [.num 1, .str "api:"]⟩ := by
  obtain ⟨h1, h2, h3⟩ :=
    InvalidateCacheByPrefix_tolerates_failures flakyCache flakyStore "api:" rfl rfl
  have hk : (enumeration flakyStore "api:").keys = ["api:1:a", "api:2:b"] := by decide
  have he : (enumeration flakyStore "api:").err = none := rfl
  refine ⟨?_, ?_, ?_⟩
  · rw [h1, hk]; rfl
  · have := h2.not
    rw [he] at this
    simpa using this
  · rw [h3 he, hk]; rfl

/-- C7 as stated fails: no function of the returned value gives the number of
successful deletions; the method returns only an error. -/
theorem InvalidateCacheByPrefix_count_not_returned :
    ¬ ∃ countOf : Option String → Nat, ∀ (cu : CacheUtils) (R : Redis) (pfx : String),
        cu.RedisClient = some ⟨some R⟩ → R.fault .ping = none →
          countOf (InvalidateCacheByPrefix cu pfx).1
            = successes R.faults (R.trace.length + 2) (enumeration R pfx).keys := by
  rintro ⟨f, hf⟩
  have h0 := hf (cacheOver [] 0) (Redis.ofData []) "api:" rfl rfl
  have h1 := hf (cacheOver [⟨"api:1:a", "x", 0⟩] 0) (Redis.ofData [⟨"api:1:a", "x", 0⟩]) "api:"
    rfl rfl
  have e0 : (InvalidateCacheByPrefix (cacheOver [] 0) "api:").1 = none := by decide
  have e1 : (InvalidateCacheByPrefix (cacheOver [⟨"api:1:a", "x", 0⟩] 0) "api:").1 = none := by
    decide
  have k0 : successes (Redis.ofData []).faults ((Redis.ofData []).trace.length + 2)
      (enumeration (Redis.ofData []) "api:").keys = 0 := by decide
  have k1 : successes (Redis.ofData [⟨"api:1:a", "x", 0⟩]).faults
      ((Redis.ofData [⟨"api:1:a", "x", 0⟩]).trace.length + 2)
      (enumeration (Redis.ofData [⟨"api:1:a", "x", 0⟩]) "api:").keys = 1 := by decide
  rw [e0, k0] at h0
  rw [e1, k1] at h1
  omega

theorem ScanFaithful.after_call {R : Redis} {pattern : String} (h : ScanFaithful R pattern)
    (c : Call) : ScanFaithful (R.issue c) pattern := h

/-- On a store without faults and with a complete scan, invalidation by prefix succeeds
and leaves the entries whose key the pattern does not select. -/
theorem InvalidateCacheByPrefix_data (cu : CacheUtils) (R : Redis) (pfx : String)
    (hR : cu.RedisClient = some ⟨some R⟩) (hF : NoFaults R)
    (hS : ScanFaithful R (pfx ++ "*")) :
    (InvalidateCacheByPrefix cu pfx).1 = none ∧
      (InvalidateCacheByPrefix cu pfx).2.data
        = R.data.filter (fun e => !scanMatches (pfx ++ "*") e.key) := by
  have hE : enumeration R pfx = R.scanner R.data (pfx ++ "*") := by
    unfold enumeration Redis.Scan
    rw [(hF.after_issue .ping).fault_none]
    rfl
  rw [InvalidateCacheByPrefix_unfold cu R pfx hR (hF.fault_none _), hE, hS.1]
  simp only [update_data]
  rw [deleteLoop_noFaults _ _ _ _ ((hF.after_issue .ping).after_issue _)]
  refine ⟨trivial, ?_⟩
  simp only [Redis.issue]
  apply List.filter_congr
  intro e he
  have := hS.2 e.key
  have hmem : e.key ∈ R.data.map Entry.key := List.mem_map_of_mem _ he
  by_cases hm : scanMatches (pfx ++ "*") e.key = true
  · have : e.key ∈ (R.scanner R.data (pfx ++ "*")).keys := this.mpr ⟨hmem, hm⟩
    simp [this, hm]
  · have : e.key ∉ (R.scanner R.data (pfx ++ "*")).keys := fun h => hm (this.mp h).2
    simp [this, hm]

theorem namespacePrefixes_plain (p : String) (hp : p ∈ namespacePrefixes) : Plain p := by
  simp only [namespacePrefixes, List.mem_cons, List.mem_singleton, List.not_mem_nil, or_false] at hp
  rcases hp with rfl | rfl | rfl | rfl <;> (unfold Plain; decide)

/-- A key under a namespace prefix starts with it. -/
theorem key_prefixed (p : String) (params : List String) :
    p.data.isPrefixOf (generateCacheKey p params).data = true := by
  obtain ⟨ds, _, _, e⟩ := generateCacheKey_data p params
  rw [e, List.isPrefixOf_iff_prefix]
  exact List.prefix_append _ _

/-- A key under a namespace prefix does not start with another namespace prefix, unless
the latter is the beginning of the former. -/
theorem key_not_prefixed (p p' : String) (params : List String)
    (hp : p ∈ namespacePrefixes) (hp' : p' ∈ namespacePrefixes) (hsub : ¬ p.data <+: p'.data) :
    p.data.isPrefixOf (generateCacheKey p' params).data = false := by
  obtain ⟨ds, hn, hd, e⟩ := generateCacheKey_data p' params
  rw [e, Bool.eq_false_iff]
  intro h
  rw [List.isPrefixOf_iff_prefix] at h
  obtain ⟨t, ht⟩ := h
  simp only [namespacePrefixes, List.mem_cons, List.mem_singleton, List.not_mem_nil, or_false]
    at hp hp'
  rcases hp with rfl | rfl | rfl | rfl <;> rcases hp' with rfl | rfl | rfl | rfl
  all_goals first
    | exact hsub (List.prefix_refl _)
    | exact hsub (by rw [TransactionPrefix_data]; exact List.prefix_append _ _)
    | exact hsub (by rw [AccountPrefix_data]; exact List.prefix_append _ _)
    | (simp only [APIPrefix_data, BlockchainPrefix_data, TransactionPrefix_data,
         AccountPrefix_data, List.cons_append, List.nil_append, List.append_assoc,
         List.cons.injEq] at ht
       first
         | exact digits_head _ _ _ _ hn hd (by decide) ht.2.2.2.2.2.2.2.2.2.2.2.symm
         | exact absurd ht.1 (by decide)
         | exact absurd ht.2.2.2.2.2.2.2.2.2.2.2.1 (by decide))

theorem ofData_noFaults (data : List Entry) : NoFaults (Redis.ofData data) :=
  fun _ _ => rfl

theorem ofData_scanFaithful (data : List Entry) (pattern : String) :
    ScanFaithful (Redis.ofData data) pattern := by
  refine ⟨rfl, fun k => ?_⟩
  simp [Redis.ofData, scanOf, List.mem_filter]

/-- Invalidation of a namespace prefix `p`: what goes and what stays. -/
theorem invalidate_namespace (cu : CacheUtils) (R : Redis) (p p' : String)
    (hR : cu.RedisClient = some ⟨some R⟩) (hF : NoFaults R) (hS : ScanFaithful R (p ++ "*"))
    (hp : p ∈ namespacePrefixes) (hp' : p' ∈ namespacePrefixes)
    (hsub : p.data.isPrefixOf p'.data = false) :
    (InvalidateCacheByPrefix cu p).1 = none ∧
      (InvalidateCacheByPrefix cu p).2.data
        = R.data.filter (fun e => !p.data.isPrefixOf e.key.data) ∧
      (∀ e ∈ R.data, ∀ params, e.key = generateCacheKey p params →
        e ∉ (InvalidateCacheByPrefix cu p).2.data) ∧
      (∀ e ∈ R.data, ∀ params, e.key = generateCacheKey p' params →
        e ∈ (InvalidateCacheByPrefix cu p).2.data) := by
  obtain ⟨h1, h2⟩ := InvalidateCacheByPrefix_data cu R p hR hF hS
  have h3 : (InvalidateCacheByPrefix cu p).2.data
      = R.data.filter (fun e => !p.data.isPrefixOf e.key.data) := by
    rw [h2]
    apply List.filter_congr
    intro e _
    rw [scanMatches_plain p e.key (namespacePrefixes_plain p hp)]
  have hsub' : ¬ p.data <+: p'.data := by
    rw [← List.isPrefixOf_iff_prefix, hsub]
    simp
  refine ⟨h1, h3, ?_, ?_⟩
  · intro e _ params hk
    rw [h3, List.mem_filter, hk, key_prefixed]
    simp
  · intro e he params hk
    rw [h3, List.mem_filter, hk, key_not_prefixed p p' params hp hp' hsub']
    exact ⟨he, rfl⟩

/-- C5, as the code has it: on a store without faults and with a complete scan,
invalidating a namespace prefix `p` removes the entries whose key starts with `p`, so
every entry cached under `p`, and keeps every entry cached under a namespace prefix
that does not begin with `p`. -/
theorem InvalidateCacheByPrefix_namespace (cu : CacheUtils) (R : Redis) (p p' : String)
    (hR : cu.RedisClient = some ⟨some R⟩) (hF : NoFaults R) (hS : ScanFaithful R (p ++ "*"))
    (hp : p ∈ namespacePrefixes) (hp' : p' ∈ namespacePrefixes)
    (hsub : p.data.isPrefixOf p'.data = false) :
    (InvalidateCacheByPrefix cu p).1 = none ∧
      (InvalidateCacheByPrefix cu p).2.data
        = R.data.filter (fun e => !p.data.isPrefixOf e.key.data) ∧
      (∀ e ∈ R.data, ∀ params, e.key = generateCacheKey p params →
        e ∉ (InvalidateCacheByPrefix cu p).2.data) ∧
      (∀ e ∈ R.data, ∀ params, e.key = generateCacheKey p' params →
        e ∈ (InvalidateCacheByPrefix cu p).2.data) :=
  invalidate_namespace cu R p p' hR hF hS hp hp' hsub

/-- C5 at a store holding a block and a transaction: invalidating `blockchain:tx:`
keeps the block. -/
theorem InvalidateCacheByPrefix_namespace_witness :
    (InvalidateCacheByPrefix (cacheOver mixedCache.data 60) "blockchain:tx:").2.data
      = [⟨generateCacheKey "blockchain:" ["100"], "1", 60 * Second⟩] := by
  have h := (InvalidateCacheByPrefix_namespace (cacheOver mixedCache.data 60)
    (Redis.ofData mixedCache.data) "blockchain:tx:" "blockchain:" rfl
    (ofData_noFaults _) (ofData_scanFaithful _ _) (by decide) (by decide) (by decide)).2.1
  rw [h]
  decide

/-- C5 as stated fails for the sub-namespaces of `blockchain:`: after caching one entry
under `blockchain:` and one under `blockchain:tx:`, invalidating `blockchain:` leaves
the store empty. -/
theorem InvalidateCacheByPrefix_subnamespace :
    mixedCache.data.map Entry.key
        = [generateCacheKey "blockchain:" ["100"], generateCacheKey "blockchain:tx:" ["0xabc"]] ∧
      (InvalidateCacheByPrefix mixedCache "blockchain:").1 = none ∧
      (InvalidateCacheByPrefix mixedCache "blockchain:").2.data = [] := by
  decide

/-! ## Writing entries -/

theorem find?_written (l : List Entry) (key value : String) (exp : Duration) :
    (l.filter (fun e : Entry => e.key ≠ key) ++ [(⟨key, value, exp⟩ : Entry)]).find?
        (fun e : Entry => e.key = key)
      = some ⟨key, value, exp⟩ := by
  have h : (l.filter (fun e : Entry => e.key ≠ key)).find? (fun e : Entry => e.key = key)
      = none := by
    rw [List.find?_eq_none]
    intro x hx
    simpa using (List.mem_filter.mp hx).2
  rw [List.find?_append, h]
  simp [List.find?]

/-- What a caching operation does after its guard, once the value is encoded. -/
theorem write_step (cu : CacheUtils) (R : Redis) (key data : String) (exp : Duration)
    (f : String → String) (line : LogLine) :
    let out : Option String × CacheUtils :=
      match SetWithExpiry R key data exp with
      | (some err, R') => (some (f err), cu.update R' [])
      | (none, R') => (none, cu.update R' [line])
    out.2.trace = R.trace ++ [.set key data exp] ∧
      (out.1 = none → out.2.lookup key = some ⟨key, data, storedExpiration (R.lookup key) exp⟩) ∧
      (R.fault (.set key data exp) = none →
        out.1 = none ∧ out.2.data = R.data.filter (fun e => e.key ≠ key) ++ [⟨key, data, storedExpiration (R.lookup key) exp⟩]) := by
  intro out
  cases hf : R.fault (.set key data exp) with
  | none =>
    have : out = (none, cu.update
        { R.issue (.set key data exp) with
          data := R.data.filter (fun e => e.key ≠ key) ++ [⟨key, data, storedExpiration (R.lookup key) exp⟩] } [line]) := by
      simp only [out, SetWithExpiry_ok R key data exp hf]
    rw [this]
    refine ⟨by simp [Redis.issue, update_trace], fun _ => ?_, fun _ => ⟨rfl, rfl⟩⟩
    simp only [CacheUtils.lookup, update_data]
    exact find?_written _ _ _ _
  | some m =>
    have : out = (some (f (Errorf "failed to set key %s in Redis: %v" [.str key, .str m])),
        cu.update (R.issue (.set key data exp)) []) := by
      simp only [out, SetWithExpiry, Redis.Set, hf, ClientErr.msg]
    rw [this]
    exact ⟨by simp [Redis.issue, update_trace], fun h => by simp at h, fun h => by simp at h⟩

theorem CacheAPIResponse_write {V : Type} (codec : Codec V) (cu : CacheUtils) (R : Redis)
    (hR : cu.RedisClient = some ⟨some R⟩) (hp : R.fault .ping = none)
    (endpoint : String) (queryParams : List (String × String)) (v : V) (data : String)
    (hm : codec.Marshal v = .ok data) (ttl : Duration) :
    let key := apiCacheKey endpoint queryParams
    let exp := if ttl = 0 then cu.DefaultTTL else ttl
    let out := CacheAPIResponse codec cu endpoint queryParams v ttl
    out.2.trace = R.trace ++ [.ping, .set key data exp] ∧
      (out.1 = none → out.2.lookup key = some ⟨key, data, storedExpiration (R.lookup key) exp⟩) ∧
      (R.faults (R.trace.length + 1) (.set key data exp) = none →
        out.1 = none ∧ out.2.data = R.data.filter (fun e => e.key ≠ key) ++ [⟨key, data, storedExpiration (R.lookup key) exp⟩]) := by
  intro key exp out
  have h := write_step (cu.update (R.issue .ping) []) (R.issue .ping) key data exp
    (fun err => Errorf "failed to cache API response for key %s: %v" [.str key, .str err])
    ⟨"Cached API response for key: %s with TTL: %v", [.str key, .dur exp]⟩
  have ho : out = (match SetWithExpiry (R.issue .ping) key data exp with
      | (some err, R') =>
        (some (Errorf "failed to cache API response for key %s: %v" [.str key, .str err]),
          (cu.update (R.issue .ping) []).update R' [])
      | (none, R') =>
        (none, (cu.update (R.issue .ping) []).update R'
          [⟨"Cached API response for key: %s with TTL: %v", [.str key, .dur exp]⟩])) := by
    simp only [out, CacheAPIResponse, healthy_of_ping cu R hR hp, hm]
  rw [ho]
  simpa [Redis.issue, Redis.fault, Redis.lookup] using h

theorem CacheBlockchainData_write {V : Type} (codec : Codec V) (cu : CacheUtils) (R : Redis)
    (hR : cu.RedisClient = some ⟨some R⟩) (hp : R.fault .ping = none)
    (dataType identifier : String) (v : V) (data : String)
    (hm : codec.Marshal v = .ok data) (ttl : Duration) :
    let key := blockchainCacheKey dataType identifier
    let exp := if ttl = 0 then cu.DefaultTTL else ttl
    let out := CacheBlockchainData codec cu dataType identifier v ttl
    out.2.trace = R.trace ++ [.ping, .set key data exp] ∧
      (out.1 = none → out.2.lookup key = some ⟨key, data, storedExpiration (R.lookup key) exp⟩) ∧
      (R.faults (R.trace.length + 1) (.set key data exp) = none →
        out.1 = none ∧ out.2.data = R.data.filter (fun e => e.key ≠ key) ++ [⟨key, data, storedExpiration (R.lookup key) exp⟩]) := by
  intro key exp out
  have h := write_step (cu.update (R.issue .ping) []) (R.issue .ping) key data exp
    (fun err => Errorf "failed to cache blockchain data for key %s: %v" [.str key, .str err])
    ⟨"Cached blockchain data for key: %s with TTL: %v", [.str key, .dur exp]⟩
  have ho : out = (match SetWithExpiry (R.issue .ping) key data exp with
      | (some err, R') =>
        (some (Errorf "failed to cache blockchain data for key %s: %v" [.str key, .str err]),
          (cu.update (R.issue .ping) []).update R' [])
      | (none, R') =>
        (none, (cu.update (R.issue .ping) []).update R'
          [⟨"Cached blockchain data for key: %s with TTL: %v", [.str key, .dur exp]⟩])) := by
    simp only [out, CacheBlockchainData, healthy_of_ping cu R hR hp, hm]
  rw [ho]
  simpa [Redis.issue, Redis.fault, Redis.lookup] using h

/-- A positive time to live of whole milliseconds is held by the server as it is. -/
theorem storedExpiration_whole (old : Option Entry) (d : Int) (hpos : 0 < d)
    (hms : d % Millisecond = 0) : storedExpiration old d = d := by
  have hms' : d % 1000000 = 0 := hms
  have hd : ¬ d < 1000000 := by omega
  unfold storedExpiration
  rw [if_pos hpos]
  by_cases hu : usePrecise d = true
  · rw [if_pos hu]
    have e : formatMs d = d / 1000000 := by
      unfold formatMs quoDuration
      rw [if_neg (fun h => hd h.2), if_pos (le_of_lt hpos)]
      rfl
    rw [e]
    show d / 1000000 * 1000000 = d
    omega
  · rw [if_neg hu]
    have hs : ¬ d < 1000000000 ∧ d % 1000000000 = 0 := by
      simpa [usePrecise, Second] using hu
    have e : formatSec d = d / 1000000000 := by
      unfold formatSec quoDuration
      rw [if_neg (fun h => hs.1 h.2), if_pos (le_of_lt hpos)]
      rfl
    rw [e]
    show d / 1000000000 * 1000000000 = d
    omega

/-- C9, as the code has it: on a store whose probe succeeds and with a value that
encodes, both caching operations hand the write the default TTL when called with
`ttl = 0` and the given `ttl` otherwise; after a call that returns no error the entry
stored under the key carries that expiration as the client sends it, which is the
expiration itself whenever it is a positive whole number of milliseconds. -/
theorem default_ttl_substitution {V : Type} (codec : Codec V) (cu : CacheUtils) (R : Redis)
    (hR : cu.RedisClient = some ⟨some R⟩) (hp : R.fault .ping = none)
    (endpoint : String) (queryParams : List (String × String)) (dataType identifier : String)
    (v : V) (data : String) (hm : codec.Marshal v = .ok data) (ttl : Duration) :
    (CacheAPIResponse codec cu endpoint queryParams v ttl).2.trace
        = R.trace ++ [.ping, .set (apiCacheKey endpoint queryParams) data
            (if ttl = 0 then cu.DefaultTTL else ttl)] ∧
      (CacheBlockchainData codec cu dataType identifier v ttl).2.trace
        = R.trace ++ [.ping, .set (blockchainCacheKey dataType identifier) data
            (if ttl = 0 then cu.DefaultTTL else ttl)] ∧
      ((CacheAPIResponse codec cu endpoint queryParams v ttl).1 = none →
        (CacheAPIResponse codec cu endpoint queryParams v ttl).2.lookup
            (apiCacheKey endpoint queryParams)
          = some ⟨apiCacheKey endpoint queryParams, data,
              storedExpiration (R.lookup (apiCacheKey endpoint queryParams))
                (if ttl = 0 then cu.DefaultTTL else ttl)⟩) ∧
      ((CacheBlockchainData codec cu dataType identifier v ttl).1 = none →
        (CacheBlockchainData codec cu dataType identifier v ttl).2.lookup
            (blockchainCacheKey dataType identifier)
          = some ⟨blockchainCacheKey dataType identifier, data,
              storedExpiration (R.lookup (blockchainCacheKey dataType identifier))
                (if ttl = 0 then cu.DefaultTTL else ttl)⟩) ∧
      (0 < (if ttl = 0 then cu.DefaultTTL else ttl) →
        (if ttl = 0 then cu.DefaultTTL else ttl) % Millisecond = 0 →
        ∀ old : Option Entry,
          storedExpiration old (if ttl = 0 then cu.DefaultTTL else ttl)
            = (if ttl = 0 then cu.DefaultTTL else ttl)) := by
  obtain ⟨a1, a2, _⟩ := CacheAPIResponse_write codec cu R hR hp endpoint queryParams v data hm ttl
  obtain ⟨b1, b2, _⟩ := CacheBlockchainData_write codec cu R hR hp dataType identifier v data hm ttl
  exact ⟨a1, b1, a2, b2, fun hpos hms old => storedExpiration_whole old _ hpos hms⟩

/-- C9 at an empty store with a default TTL of sixty seconds: a call with `ttl = 0`
hands the write sixty seconds and the entry is stored with sixty seconds; a call with
`ttl = 5` hands the write 5. -/
theorem default_ttl_substitution_witness :
    (CacheAPIResponse natCodec (cacheOver [] (60 * Second)) "/users" [("a", "1")] 42 0).2.trace
        = [.ping, .set (apiCacheKey "/users" [("a", "1")]) "42" (60 * Second)] ∧
      (CacheAPIResponse natCodec (cacheOver [] (60 * Second)) "/users" [("a", "1")] 42 0).2.lookup
          (apiCacheKey "/users" [("a", "1")])
        = some ⟨apiCacheKey "/users" [("a", "1")], "42", 60 * Second⟩ ∧
      (CacheBlockchainData natCodec (cacheOver [] (60 * Second)) "account" "0xabc" 42 5).2.trace
        = [.ping, .set (blockchainCacheKey "account" "0xabc") "42" 5] := by
  have h0 := default_ttl_substitution natCodec (cacheOver [] (60 * Second)) (Redis.ofData [])
    rfl rfl "/users" [("a", "1")] "account" "0xabc" 42 "42" rfl 0
  have h5 := default_ttl_substitution natCodec (cacheOver [] (60 * Second)) (Redis.ofData [])
    rfl rfl "/users" [("a", "1")] "account" "0xabc" 42 "42" rfl 5
  refine ⟨h0.1, ?_, h5.2.1⟩
  have hs := h0.2.2.2.2 (by decide) (by decide) ((Redis.ofData []).lookup
    (apiCacheKey "/users" [("a", "1")]))
  have hl := h0.2.2.1 (by decide)
  rw [hs] at hl
  exact hl

/-- C9 as stated fails: with a default TTL of 60 nanoseconds a call with `ttl = 0`
succeeds and the entry is stored with one millisecond, the least the client sends. -/
theorem default_ttl_not_stored_verbatim :
    (cacheOver [] 60).DefaultTTL = 60 ∧
      (CacheAPIResponse natCodec (cacheOver [] 60) "/users" [("a", "1")] 42 0).1 = none ∧
      ((CacheAPIResponse natCodec (cacheOver [] 60) "/users" [("a", "1")] 42 0).2.lookup
          (apiCacheKey "/users" [("a", "1")])).map Entry.expiration = some 1000000 := by
  decide

/-! ## Invalidation of blockchain entries -/

theorem InvalidateCacheByKey_data (cu : CacheUtils) (R : Redis) (key : String)
    (hR : cu.RedisClient = some ⟨some R⟩) (hF : NoFaults R) :
    (InvalidateCacheByKey cu key).1 = none ∧
      (InvalidateCacheByKey cu key).2.data = R.data.filter (fun e => e.key ≠ key) := by
  unfold InvalidateCacheByKey
  rw [healthy_of_ping cu R hR (hF.fault_none _)]
  simp only [Delete_ok (R.issue .ping) key ((hF.after_issue .ping).fault_none _)]
  exact ⟨trivial, rfl⟩

theorem InvalidateBlockchainCache_unfold (cu : CacheUtils) (R : Redis)
    (dataType identifier : String) (hR : cu.RedisClient = some ⟨some R⟩)
    (hp : R.fault .ping = none) :
    InvalidateBlockchainCache cu dataType identifier
      = if identifier = "" then
          InvalidateCacheByPrefix (cu.update (R.issue .ping) []) (blockchainPrefix dataType)
        else
          InvalidateCacheByKey (cu.update (R.issue .ping) [])
            (blockchainCacheKey dataType identifier) := by
  unfold InvalidateBlockchainCache
  rw [healthy_of_ping cu R hR hp]

theorem blockchainPrefix_mem (dataType : String) : blockchainPrefix dataType ∈ namespacePrefixes := by
  unfold blockchainPrefix namespacePrefixes
  split
  · simp
  · split <;> simp

theorem blockchainPrefix_other (dataType : String) (h : dataType ≠ "account") :
    (blockchainPrefix "account").data.isPrefixOf (blockchainPrefix dataType).data = false := by
  unfold blockchainPrefix
  by_cases ht : dataType = "transaction"
  · rw [if_pos ht]; decide
  · rw [if_neg ht, if_neg h]; decide

/-- C6: on a store without faults and with a complete scan, invalidating the account
entry of a non-empty identifier removes the entry under the key that
`CacheBlockchainData("account", id, ...)` writes and nothing else; invalidating with an
empty identifier removes every entry written with data type `account` and keeps every
entry written with another data type or by `CacheAPIResponse`. -/
theorem InvalidateBlockchainCache_account {V : Type} (codec : Codec V) (cu : CacheUtils)
    (R : Redis) (hR : cu.RedisClient = some ⟨some R⟩) (hF : NoFaults R)
    (hS : ScanFaithful R (blockchainPrefix "account" ++ "*")) :
    (∀ (id : String) (v : V) (data : String) (ttl : Duration), codec.Marshal v = .ok data →
      (CacheBlockchainData codec cu "account" id v ttl).2.data
        = R.data.filter (fun e => e.key ≠ blockchainCacheKey "account" id)
            ++ [⟨blockchainCacheKey "account" id, data,
                  storedExpiration (R.lookup (blockchainCacheKey "account" id))
                    (if ttl = 0 then cu.DefaultTTL else ttl)⟩]) ∧
      (∀ id : String, id ≠ "" →
        (InvalidateBlockchainCache cu "account" id).1 = none ∧
        (InvalidateBlockchainCache cu "account" id).2.data
          = R.data.filter (fun e => e.key ≠ blockchainCacheKey "account" id)) ∧
      (InvalidateBlockchainCache cu "account" "").1 = none ∧
      (∀ e ∈ R.data, ∀ id : String, e.key = blockchainCacheKey "account" id →
        e ∉ (InvalidateBlockchainCache cu "account" "").2.data) ∧
      (∀ e ∈ R.data, ∀ dataType id : String, dataType ≠ "account" →
        e.key = blockchainCacheKey dataType id →
        e ∈ (InvalidateBlockchainCache cu "account" "").2.data) ∧
      (∀ e ∈ R.data, ∀ (endpoint : String) (queryParams : List (String × String)),
        e.key = apiCacheKey endpoint queryParams →
        e ∈ (InvalidateBlockchainCache cu "account" "").2.data) := by
  have hR' : (cu.update (R.issue .ping) []).RedisClient = some ⟨some (R.issue .ping)⟩ := rfl
  have hblank : InvalidateBlockchainCache cu "account" ""
      = InvalidateCacheByPrefix (cu.update (R.issue .ping) []) (blockchainPrefix "account") := by
    rw [InvalidateBlockchainCache_unfold cu R _ _ hR (hF.fault_none _), if_pos rfl]
  have hacc : blockchainPrefix "account" ∈ namespacePrefixes := blockchainPrefix_mem _
  refine ⟨?_, ?_, ?_, ?_, ?_, ?_⟩
  · intro id v data ttl hm
    exact ((CacheBlockchainData_write codec cu R hR (hF.fault_none _) "account" id v data hm ttl).2.2
      (hF _ _)).2
  · intro id hid
    rw [InvalidateBlockchainCache_unfold cu R _ _ hR (hF.fault_none _), if_neg hid]
    exact InvalidateCacheByKey_data _ (R.issue .ping) _ hR' (hF.after_issue _)
  · rw [hblank]
    exact (InvalidateCacheByPrefix_data _ (R.issue .ping) _ hR' (hF.after_issue _) (hS.after_call _)).1
  · intro e he id hk
    rw [hblank]
    exact (invalidate_namespace _ (R.issue .ping) _ _ hR' (hF.after_issue _) (hS.after_call _)
      hacc (blockchainPrefix_mem "transaction") (by decide)).2.2.1 e he [id] hk
  · intro e he dataType id hdt hk
    rw [hblank]
    exact (invalidate_namespace _ (R.issue .ping) _ _ hR' (hF.after_issue _) (hS.after_call _)
      hacc (blockchainPrefix_mem dataType) (blockchainPrefix_other dataType hdt)).2.2.2 e he [id] hk
  · intro e he endpoint queryParams hk
    rw [hblank]
    exact (invalidate_namespace _ (R.issue .ping) _ APIPrefix hR' (hF.after_issue _)
      (hS.after_call _) hacc (by simp [namespacePrefixes]) (by decide)).2.2.2 e he _ hk

/-- C6 at a store holding two accounts and a transaction: the blanket invalidation
succeeds, removes an account entry and keeps the transaction; the invalidation of one
account removes the entry under its key only. -/
theorem InvalidateBlockchainCache_account_witness :
    (InvalidateBlockchainCache (cacheOver ledgerCache.data 60) "account" "").1 = none ∧
      (⟨blockchainCacheKey "account" "0xabc", "1", 60 * Second⟩ : Entry)
        ∉ (InvalidateBlockchainCache (cacheOver ledgerCache.data 60) "account" "").2.data ∧
      (⟨blockchainCacheKey "transaction" "0x1", "3", 60 * Second⟩ : Entry)
        ∈ (InvalidateBlockchainCache (cacheOver ledgerCache.data 60) "account" "").2.data ∧
      (InvalidateBlockchainCache (cacheOver ledgerCache.data 60) "account" "0xabc").2.data
        = ledgerCache.data.filter (fun e => e.key ≠ blockchainCacheKey "account" "0xabc") := by
  have h := InvalidateBlockchainCache_account natCodec (cacheOver ledgerCache.data 60)
    (Redis.ofData ledgerCache.data) rfl (ofData_noFaults _) (ofData_scanFaithful _ _)
  exact ⟨h.2.2.1,
    h.2.2.2.1 ⟨blockchainCacheKey "account" "0xabc", "1", 60 * Second⟩ (by decide) "0xabc" rfl,
    h.2.2.2.2.1 ⟨blockchainCacheKey "transaction" "0x1", "3", 60 * Second⟩ (by decide)
      "transaction" "0x1" (by decide) rfl,
    (h.2.1 "0xabc" (by decide)).2⟩

/-! ## The guard when the store is not available -/

/-- When there is no client or its probe fails, the guard stops the operation, having
sent at most the probe. -/
theorem healthy_unavailable (cu : CacheUtils) (h : Unavailable cu) :
    cu.healthy.1 = none ∧ Untouched cu cu.healthy.2 := by
  unfold Unavailable CacheUtils.redis at h
  unfold Untouched CacheUtils.healthy
  cases hc : cu.RedisClient with
  | none => exact ⟨rfl, rfl, Or.inl rfl⟩
  | some rc =>
    rcases rc with ⟨_ | R⟩
    · simp [RedisClient.IsHealthy, CacheUtils.data, CacheUtils.trace, CacheUtils.redis, hc]
    · rw [hc] at h
      simp only [Option.bind] at h
      cases hf : R.fault .ping with
      | none => exact absurd hf h
      | some m =>
        simp [RedisClient.IsHealthy, Redis.Ping, hf, CacheUtils.data, CacheUtils.trace,
          CacheUtils.redis, hc, Redis.issue]

/-- C10: when there is no client or its probe fails, each of the nine operations
returns the error of the guard (with `found = false`, or a duration of zero, where it
has such a result), leaves the content of the store as it was and sends nothing to the
store except, at most, the probe. -/
theorem unavailable_gate {V : Type} (codec : Codec V) (cu : CacheUtils) (h : Unavailable cu)
    (endpoint : String) (queryParams : List (String × String))
    (dataType identifier pfx key : String) (v : V) (ttl : Duration) :
    ((CacheAPIResponse codec cu endpoint queryParams v ttl).1 = some errUnavailable ∧
        Untouched cu (CacheAPIResponse codec cu endpoint queryParams v ttl).2) ∧
      ((GetCachedAPIResponse codec cu endpoint queryParams).1 = (false, some errUnavailable, none) ∧
        Untouched cu (GetCachedAPIResponse codec cu endpoint queryParams).2) ∧
      ((CacheBlockchainData codec cu dataType identifier v ttl).1 = some errUnavailable ∧
        Untouched cu (CacheBlockchainData codec cu dataType identifier v ttl).2) ∧
      ((GetCachedBlockchainData codec cu dataType identifier).1
          = (false, some errUnavailable, none) ∧
        Untouched cu (GetCachedBlockchainData codec cu dataType identifier).2) ∧
      ((InvalidateCacheByPrefix cu pfx).1 = some errUnavailable ∧
        Untouched cu (InvalidateCacheByPrefix cu pfx).2) ∧
      ((InvalidateCacheByKey cu key).1 = some errUnavailable ∧
        Untouched cu (InvalidateCacheByKey cu key).2) ∧
      ((InvalidateBlockchainCache cu dataType identifier).1 = some errUnavailable ∧
        Untouched cu (InvalidateBlockchainCache cu dataType identifier).2) ∧
      ((SetCacheTTL cu key ttl).1 = some errUnavailable ∧
        Untouched cu (SetCacheTTL cu key ttl).2) ∧
      ((GetCacheTTL cu key).1 = (0, some errUnavailable) ∧
        Untouched cu (GetCacheTTL cu key).2) := by
  obtain ⟨h1, h2⟩ := healthy_unavailable cu h
  rcases hh : cu.healthy with ⟨o, cu'⟩
  rw [hh] at h1 h2
  simp only at h1 h2
  subst h1
  simp only [CacheAPIResponse, GetCachedAPIResponse, CacheBlockchainData,
    GetCachedBlockchainData, InvalidateCacheByPrefix, InvalidateCacheByKey,
    InvalidateBlockchainCache, SetCacheTTL, GetCacheTTL, hh]
  exact ⟨⟨trivial, h2⟩, ⟨trivial, h2⟩, ⟨trivial, h2⟩, ⟨trivial, h2⟩, ⟨trivial, h2⟩,
    ⟨trivial, h2⟩, ⟨trivial, h2⟩, ⟨trivial, h2⟩, ⟨trivial, h2⟩⟩

/-- C10 at a store whose probe fails: the read reports the guard's error and the
invalidation leaves the stored entry, having sent at most the probe. -/
theorem unavailable_gate_witness :
    (GetCachedAPIResponse natCodec downCache "/users" []).1 = (false, some errUnavailable, none) ∧
      (InvalidateCacheByPrefix downCache "api:").2.data = [⟨"api:1:a", "x", 0⟩] ∧
      ((InvalidateCacheByPrefix downCache "api:").2.trace = [] ∨
        (InvalidateCacheByPrefix downCache "api:").2.trace = [.ping]) := by
  have hd : Unavailable downCache := by
    show (some "connection refused" : Option String) ≠ none
    simp
  have h := unavailable_gate natCodec downCache hd "/users" [] "account" "" "api:" "k" 0 0
  exact ⟨h.2.1.1, h.2.2.2.2.1.2.1, h.2.2.2.2.1.2.2⟩

/-! ## Traversal order of the query parameters -/

/-- C2 fails on the code: two traversals of the same two query parameters give
different keys; the parameters are joined in the order of the traversal, unsorted. -/
theorem apiCacheKey_depends_on_order :
    apiCacheKey "/users" [("a", "1"), ("b", "2")]
      ≠ apiCacheKey "/users" [("b", "2"), ("a", "1")] := by
  decide

/-- C3 fails on the code: a response cached while the two query parameters are
traversed in one order is not found when the read traverses them in the other order. -/
theorem roundtrip_depends_on_order :
    (CacheAPIResponse natCodec (cacheOver [] 60) "/users" [("a", "1"), ("b", "2")] 42 0).1
        = none ∧
      (GetCachedAPIResponse natCodec
        (CacheAPIResponse natCodec (cacheOver [] 60) "/users" [("a", "1"), ("b", "2")] 42 0).2
        "/users" [("b", "2"), ("a", "1")]).1.1 = false ∧
      (GetCachedAPIResponse natCodec
        (CacheAPIResponse natCodec (cacheOver [] 60) "/users" [("a", "1"), ("b", "2")] 42 0).2
        "/users" [("b", "2"), ("a", "1")]).1.2.2 = none := by
  decide

theorem GetCachedAPIResponse_hit {V : Type} (codec : Codec V) (cu : CacheUtils) (R : Redis)
    (hR : cu.RedisClient = some ⟨some R⟩) (hF : NoFaults R)
    (endpoint : String) (queryParams : List (String × String)) (e : Entry) (v : V)
    (hl : R.lookup (apiCacheKey endpoint queryParams) = some e)
    (hu : codec.Unmarshal e.value = .ok v) :
    (GetCachedAPIResponse codec cu endpoint queryParams).1 = (true, none, some v) := by
  have hg : Get (R.issue .ping) (apiCacheKey endpoint queryParams)
      = (.ok e.value, (R.issue .ping).issue (.get (apiCacheKey endpoint queryParams))) := by
    have hl' : (R.issue .ping).lookup (apiCacheKey endpoint queryParams) = some e := hl
    simp only [Get, Redis.Get, (hF.after_issue .ping).fault_none, hl']
  simp only [GetCachedAPIResponse, healthy_of_ping cu R hR (hF.fault_none _), hg, hu]

/-- When the read traverses the query parameters in the order of the write, the value
comes back: on a store without faults, with a value that encodes and decodes. -/
theorem roundtrip_same_order {V : Type} (codec : Codec V) (cu : CacheUtils) (R : Redis)
    (hR : cu.RedisClient = some ⟨some R⟩) (hF : NoFaults R)
    (endpoint : String) (queryParams : List (String × String)) (v : V) (data : String)
    (hm : codec.Marshal v = .ok data) (hu : codec.Unmarshal data = .ok v) (ttl : Duration) :
    (CacheAPIResponse codec cu endpoint queryParams v ttl).1 = none ∧
      (GetCachedAPIResponse codec (CacheAPIResponse codec cu endpoint queryParams v ttl).2
        endpoint queryParams).1 = (true, none, some v) := by
  have hw : CacheAPIResponse codec cu endpoint queryParams v ttl
      = (none, (cu.update (R.issue .ping) []).update
          { (R.issue .ping).issue (.set (apiCacheKey endpoint queryParams) data
              (if ttl = 0 then cu.DefaultTTL else ttl)) with
            data := R.data.filter (fun e => e.key ≠ apiCacheKey endpoint queryParams)
              ++ [⟨apiCacheKey endpoint queryParams, data,
                    storedExpiration (R.lookup (apiCacheKey endpoint queryParams))
                      (if ttl = 0 then cu.DefaultTTL else ttl)⟩] }
          [⟨"Cached API response for key: %s with TTL: %v",
            [.str (apiCacheKey endpoint queryParams),
              .dur (if ttl = 0 then cu.DefaultTTL else ttl)]⟩]) := by
    simp only [CacheAPIResponse, healthy_of_ping cu R hR (hF.fault_none _), hm,
      SetWithExpiry_ok (R.issue .ping) _ _ _ ((hF.after_issue .ping).fault_none _)]
    rfl
  rw [hw]
  refine ⟨rfl, ?_⟩
  exact GetCachedAPIResponse_hit codec _
    { (R.issue .ping).issue (.set (apiCacheKey endpoint queryParams) data
        (if ttl = 0 then cu.DefaultTTL else ttl)) with
      data := R.data.filter (fun e => e.key ≠ apiCacheKey endpoint queryParams)
        ++ [⟨apiCacheKey endpoint queryParams, data,
              storedExpiration (R.lookup (apiCacheKey endpoint queryParams))
                (if ttl = 0 then cu.DefaultTTL else ttl)⟩] }
    rfl (fun n c => hF n c)
    endpoint queryParams ⟨apiCacheKey endpoint queryParams, data,
      storedExpiration (R.lookup (apiCacheKey endpoint queryParams))
        (if ttl = 0 then cu.DefaultTTL else ttl)⟩ v (find?_written _ _ _ _) hu

/-! ## Loading the configuration -/

/-- C8 fails on the code: with failover enabled and an address list that holds only
separators, `LoadRedisConfig` returns a configuration, without error, whose list of
addresses is empty. -/
theorem LoadRedisConfig_accepts_separators_only :
    LoadRedisConfig envSeparatorsOnly = .ok
      { Host := "localhost", Port := 6379, Password := "", DB := 0, PoolSize := 10,
        MinIdleConns := 2, MaxConnAge := 300000000000, IdleTimeout := 60000000000,
        SentinelEnabled := true, SentinelMaster := "mymaster", SentinelAddresses := [] } := by
  rfl

/-- What `LoadRedisConfig` does check in failover mode: the name of the primary is not
empty, the variable of the addresses is not empty, and the addresses are its split. -/
theorem LoadRedisConfig_failover (env : String → String) (cfg : RedisConfig)
    (h : LoadRedisConfig env = .ok cfg) (he : cfg.SentinelEnabled = true) :
    cfg.SentinelMaster ≠ "" ∧ env "REDIS_SENTINEL_ADDRESSES" ≠ "" ∧
      cfg.SentinelAddresses = splitCommaSeparated (env "REDIS_SENTINEL_ADDRESSES") := by
  unfold LoadRedisConfig at h
  iterate 7 (split at h; · exact absurd h (by simp))
  dsimp only at h
  by_cases hs : env "REDIS_SENTINEL_ADDRESSES" = ""
  all_goals by_cases hh : env "REDIS_HOST" = ""
  all_goals by_cases hm : env "REDIS_SENTINEL_MASTER" = ""
  all_goals rename_i enabled _
  all_goals cases enabled
  all_goals simp [hs, hh, hm] at h
  all_goals subst h
  all_goals simp_all

end HermitCache
